import Mathlib

/-!
# Slack contact of sandcat (`gocat-extensions/contact/slack.go`)

A shallow embedding of the Slack transport: the frame codec, the two
retrieval loops, the beacon protocol and the chunked uploader, followed by
the properties of the specification that were checked against it.

Go strings and byte slices are lists of bytes.  Values of type
`interface{}` are a small inductive type.  HTTP traffic is explicit: every
transport call takes the next reply from a script held in the `World` and
appends an `Event` to its trace.  A Go run-time panic is the `fault`
outcome, which keeps the world reached at the point of the panic.
-/

namespace Slack

/-! ## Strings, bytes and dynamic values -/

/-- One byte. -/
abbrev Byte := Fin 256

/-- A Go `string` (or `[]byte`): a sequence of bytes. -/
abbrev GoString := List Byte

/-- An ASCII literal as a Go string. -/
def lit (s : String) : GoString := s.toList.map (fun c => Fin.ofNat c.toNat)

/-- A dynamically typed Go value, as `encoding/json` decodes into
`interface{}` (plus `int`, which host-built profiles contain).  A `float64`
is kept as its bit pattern; the code never computes with one. -/
inductive Value where
  | nil
  | bool (b : Bool)
  | int (i : Int)
  | float64 (bits : Nat)
  | str (s : GoString)
  | slice (xs : List Value)
  | map (kv : List (GoString × Value))

/-- A `map[string]interface{}`: an association list, first entry wins. -/
abbrev Obj := List (GoString × Value)

/-- The lookup `m[key]` of a Go map: the zero value `nil` when the key is absent
(also on a nil map). -/
def index (m : Obj) (key : GoString) : Value :=
  match m with
  | [] => Value.nil
  | (k, v) :: rest => if k = key then v else index rest key

/-- The type assertion `v.(string)`; `none` is the run-time panic. -/
def asString : Value → Option GoString
  | Value.str s => some s
  | _ => none

/-- The type assertion `v.(bool)`; `none` is the run-time panic. -/
def asBool : Value → Option Bool
  | Value.bool b => some b
  | _ => none

/-- The type assertion `v.([]interface{})`; `none` is the run-time panic. -/
def asSlice : Value → Option (List Value)
  | Value.slice xs => some xs
  | _ => none

/-- The type assertion `v.(map[string]interface{})`; `none` is the run-time panic. -/
def asMap : Value → Option Obj
  | Value.map kv => some kv
  | _ => none

/-- The comparison `v == false` of an interface value with the constant `false`:
true only for a boolean `false`; `nil` and every other value compare unequal. -/
def eqFalse : Value → Bool
  | Value.bool false => true
  | _ => false

/-- The comparison `v == 60` of an interface value with the untyped constant
`slackTimeout`: true only for an `int` holding 60. -/
def eqInt (v : Value) (n : Int) : Bool :=
  match v with
  | Value.int i => decide (i = n)
  | _ => false

/-- Behaviour of the Go standard library that the code calls and that is not
re-implemented here. -/
structure GoLib where
  /-- `fmt.Sprintf("%s", v)` for a value `v` that is not a string. -/
  sprintOther : Value → GoString
  /-- `json.Marshal(profile)`: the bytes, or `none` when it reports an error. -/
  jsonMarshal : Obj → Option (List Byte)

/-- `fmt.Sprintf("%s", v)` for an interface value: a string is printed as it is. -/
def sprintS (lib : GoLib) : Value → GoString
  | Value.str s => s
  | v => lib.sprintOther v

/-- Decimal digits of a natural number. -/
def digits (n : Nat) : GoString := (Nat.toDigits 10 n).map (fun c => Fin.ofNat c.toNat)

/-- The verb `%d` of `fmt.Sprintf` on an integer (also `strconv.Itoa`). -/
def fmtD (i : Int) : GoString :=
  if i < 0 then lit "-" ++ digits (-i).toNat else digits i.toNat

/-! ## `strings.Index`, `strings.SplitN`, `strings.Contains` -/

/-- First position at which `substr` occurs in the string, if any. -/
def indexFrom (substr : GoString) : GoString → Option Nat
  | [] => if substr = [] then some 0 else none
  | c :: s =>
    if substr.isPrefixOf (c :: s) then some 0
    else (indexFrom substr s).map (· + 1)

/-- `strings.Index(s, substr)`: the first position of `substr` in `s`, or -1. -/
def Index (s substr : GoString) : Int :=
  match indexFrom substr s with
  | some i => (i : Int)
  | none => -1

/-- `strings.Contains(s, substr)`. -/
def Contains (s substr : GoString) : Bool := decide (Index s substr ≥ 0)

/-- `strings.SplitN(s, sep, 2)` for a non-empty separator: the string itself when
the separator does not occur, else what stands before and after its first
occurrence. -/
def SplitN2 (s sep : GoString) : List GoString :=
  match indexFrom sep s with
  | none => [s]
  | some m => [s.take m, s.drop (m + sep.length)]

/-! ## `encoding/base64`, standard alphabet with padding -/

/-- The alphabet of `base64.StdEncoding`. -/
def encodeStd : GoString :=
  lit "ABCDEFGHIJKLMNOPQRSTUVWXYZabcdefghijklmnopqrstuvwxyz0123456789+/"

/-- The padding character `=`. -/
def padChar : Byte := 61

/-- Character of a six-bit value. -/
def encChar (v : Nat) : Byte := encodeStd.getD v 0

/-- Six-bit value of a character of the alphabet; `none` stands for the entry
`0xff` of the decode map. -/
def decodeMap (c : Byte) : Option Nat :=
  let i := encodeStd.indexOf c
  if i < 64 then some i else none

/-- `base64.StdEncoding.EncodeToString`. -/
def EncodeToString : List Byte → GoString
  | a :: b :: c :: rest =>
    let val := a.val * 65536 + b.val * 256 + c.val
    encChar (val / 262144 % 64) :: encChar (val / 4096 % 64) ::
      encChar (val / 64 % 64) :: encChar (val % 64) :: EncodeToString rest
  | [a, b] =>
    let val := a.val * 65536 + b.val * 256
    [encChar (val / 262144 % 64), encChar (val / 4096 % 64), encChar (val / 64 % 64), padChar]
  | [a] =>
    let val := a.val * 65536
    [encChar (val / 262144 % 64), encChar (val / 4096 % 64), padChar, padChar]
  | [] => []

/-- Line feed and carriage return, which the decoder skips. -/
def isNewline (c : Byte) : Bool := c = 10 || c = 13

/-- Skip line breaks in front of the input. -/
def skipNewlines : GoString → GoString
  | [] => []
  | c :: rest => if isNewline c then skipNewlines rest else c :: rest

/-- The bytes that a quantum of `dlen` six-bit values yields (`dlen - 1` of them);
`byte(...)` truncates. -/
def quantumBytes (dbuf : List Nat) (dlen : Nat) : List Byte :=
  let val := dbuf.getD 0 0 * 262144 + dbuf.getD 1 0 * 4096 + dbuf.getD 2 0 * 64 + dbuf.getD 3 0
  ([Fin.ofNat (val / 65536), Fin.ofNat (val / 256), Fin.ofNat val] : List Byte).take (dlen - 1)

/-- The decoder loop of `base64.StdEncoding.DecodeString` (non-strict), with the
six-bit values of the quantum in progress; `none` is a `CorruptInputError`. -/
def decodeFrom : GoString → List Nat → Option (List Byte)
  | [], dbuf => if dbuf.length = 0 then some [] else none
  | c :: rest, dbuf =>
    match decodeMap c with
    | some out =>
      if dbuf.length = 3 then
        (decodeFrom rest []).map (fun tl => quantumBytes (dbuf ++ [out]) 4 ++ tl)
      else decodeFrom rest (dbuf ++ [out])
    | none =>
      if isNewline c then decodeFrom rest dbuf
      else if c ≠ padChar then none
      else
        match dbuf.length with
        | 0 => none
        | 1 => none
        | 2 =>
          match skipNewlines rest with
          | [] => none
          | d :: rest2 =>
            if d ≠ padChar then none
            else if skipNewlines rest2 = [] then some (quantumBytes dbuf 2)
            else none
        | _ => if skipNewlines rest = [] then some (quantumBytes dbuf 3) else none

/-- `base64.StdEncoding.DecodeString`; `none` when it reports an error. -/
def DecodeString (s : GoString) : Option (List Byte) := decodeFrom s []

/-! ## Constants and package state -/

def slackTimeout : Nat := 60
def slackTimeoutResetInterval : Nat := 5
def beaconResponseFailThreshold : Nat := 3
def beaconWait : Nat := 10
def maxDataChunkSize : Nat := 750000

/-- The package variable `channel_id` (a placeholder filled in at build time). -/
def channel_id : GoString := lit "\x7bSLACK_C2_CHANNEL_ID\x7d"

def postMessageUrl : GoString := lit "https://slack.com/api/chat.postMessage"
def deleteUrl : GoString := lit "https://slack.com/api/chat.delete"

/-- The address of the history call for a clock reading `now` (Unix seconds). -/
def historyUrl (now : Int) : GoString :=
  lit "https://slack.com/api/conversations.history?channel=" ++ channel_id ++
    lit "&oldest=" ++ fmtD (now - slackTimeout * 2)

/-! ## The world: scripted transport replies and the trace of effects -/

/-- A response body as the callers use it. -/
structure Body where
  /-- The bytes read from the response; empty for the `nil` of a failed call. -/
  raw : List Byte
  /-- What `json.Unmarshal(raw, &result)` leaves in a fresh
  `map[string]interface{}`: the members of the JSON object, and nothing (the map
  stays nil) when `raw` is empty or is not a JSON object. -/
  parsed : Obj

/-- The `nil` that `post_request` and `get_request` return on failure. -/
def noBytes : Body := { raw := [], parsed := [] }

/-- How one transport call ends. -/
inductive Reply where
  /-- `http.NewRequest` reports an error: `req` is nil and `req.Header.Set` faults. -/
  | badRequest
  /-- `client.Do` or `ioutil.ReadAll` reports an error: the call returns `nil`. -/
  | failed
  /-- The call returns the body of the response. -/
  | body (b : Body)

/-- An effect that the code performs. -/
inductive Event where
  /-- A POST of a JSON object (the map handed to `json.Marshal`) to an address. -/
  | post (address : GoString) (body : Obj)
  /-- A GET of an address. -/
  | get (address : GoString)
  /-- A `time.Sleep` of so many seconds. -/
  | sleep (seconds : Nat)

/-- The environment of a run: the replies the transport will give, in order (when
they run out, calls fail), the readings `time.Now().Unix()` will give, and the
effects performed so far, oldest first. -/
structure World where
  replies : List Reply
  clock : List Int
  trace : List Event

/-- Result of running a function: it returns a value, or the goroutine panics. -/
inductive Outcome (α : Type) where
  | ret (a : α) (w : World)
  | fault (w : World)

/-- The world in which an outcome ends. -/
def Outcome.world {α : Type} : Outcome α → World
  | Outcome.ret _ w => w
  | Outcome.fault w => w

/-- `time.Now().Unix()`. -/
def timeNow (w : World) : Int × World :=
  match w.clock with
  | [] => (0, w)
  | t :: rest => (t, { w with clock := rest })

/-- `time.Sleep` of a number of seconds. -/
def sleep (seconds : Nat) (w : World) : World :=
  { w with trace := w.trace ++ [Event.sleep seconds] }

/-- One HTTP exchange: the event is recorded once the request exists, and the next
scripted reply decides the result. -/
def exchange (e : Event) (w : World) : Outcome Body :=
  match w.replies with
  | [] => Outcome.ret noBytes { w with trace := w.trace ++ [e] }
  | Reply.badRequest :: rest => Outcome.fault { w with replies := rest }
  | Reply.failed :: rest => Outcome.ret noBytes { w with replies := rest, trace := w.trace ++ [e] }
  | Reply.body b :: rest => Outcome.ret b { w with replies := rest, trace := w.trace ++ [e] }

/-- `post_request(address, data)`, `data` being the JSON encoding of `body`. -/
def post_request (address : GoString) (body : Obj) (w : World) : Outcome Body :=
  exchange (Event.post address body) w

/-- `get_request(address)`. -/
def get_request (address : GoString) (w : World) : Outcome Body :=
  exchange (Event.get address) w

/-! ## Frame codec and sending -/

/-- `getSlackDescriptor`: `fmt.Sprintf("%s-%s", slackType, uniqueId)`. -/
def getSlackDescriptor (slackType uniqueId : GoString) : GoString :=
  slackType ++ lit "-" ++ uniqueId

/-- The message text built in `createSlack`:
`fmt.Sprintf("%s | %s", slackName, base64(data))`. -/
def slackText (slackName : GoString) (data : List Byte) : GoString :=
  slackName ++ lit " | " ++ EncodeToString data

/-- The request body of `createSlack`, the map `{"channel": ..., "text": ...}`. -/
def postMessageBody (slackName : GoString) (data : List Byte) : Obj :=
  [(lit "channel", Value.str channel_id), (lit "text", Value.str (slackText slackName data))]

/-- `createSlack`: posts `{channel, text}` and returns `result["ok"].(bool)`.  The
parameter `description` is not used by the body of the function. -/
def createSlack (slackName _description : GoString) (data : List Byte) (w : World) :
    Outcome Bool :=
  let requestBody : Obj := postMessageBody slackName data
  match post_request postMessageUrl requestBody w with
  | Outcome.fault w1 => Outcome.fault w1
  | Outcome.ret popog w1 =>
    match asBool (index popog.parsed (lit "ok")) with
    | some b => Outcome.ret b w1
    | none => Outcome.fault w1

/-! ## Message store access -/

/-- The test of lines 243 and 291:
`strings.Index(Sprintf("%s", text), Sprintf("%s-%s", slackType, uniqueID)) == 0`. -/
def isMatch (slackType uniqueID text : GoString) : Bool :=
  decide (Index text (slackType ++ lit "-" ++ uniqueID) = 0)

/-- The body `{channel, ts}` of the delete request for a message; `json.Marshal`
cannot fail on it, the `ts` being a decoded JSON value. -/
def deleteBody (msg : Obj) : Obj :=
  [(lit "channel", Value.str channel_id), (lit "ts", index msg (lit "ts"))]

/-- The deletion step shared by both loops: skipped when the type contains
`payloads`; the response of `chat.delete` is ignored. -/
def deleteUnlessPayloads (slackType : GoString) (msg : Obj) (w : World) : Outcome Unit :=
  if !Contains slackType (lit "payloads") then
    match post_request deleteUrl (deleteBody msg) w with
    | Outcome.fault w1 => Outcome.fault w1
    | Outcome.ret _ w1 => Outcome.ret () w1
  else Outcome.ret () w

/-- The `for i := range messages` loop of `getSlackMessages`, over the messages not
yet visited, with the `contents` gathered so far. -/
def getSlackMessagesLoop (lib : GoLib) (slackType uniqueID : GoString) :
    List Value → List GoString → World → Outcome (List GoString)
  | [], contents, w => Outcome.ret contents w
  | m :: rest, contents, w =>
    match asMap m with
    | none => Outcome.fault w
    | some msg =>
      let text := sprintS lib (index msg (lit "text"))
      if isMatch slackType uniqueID text then
        match (SplitN2 text (lit " | ")).get? 1 with
        | none => Outcome.fault w
        | some payload =>
          match deleteUnlessPayloads slackType msg w with
          | Outcome.fault w1 => Outcome.fault w1
          | Outcome.ret _ w1 =>
            getSlackMessagesLoop lib slackType uniqueID rest (contents ++ [payload]) w1
      else getSlackMessagesLoop lib slackType uniqueID rest contents w

/-- `getSlackMessages`: inline-text retrieval. -/
def getSlackMessages (lib : GoLib) (slackType uniqueID : GoString) (w : World) :
    Outcome (List GoString) :=
  let (now, w0) := timeNow w
  match get_request (historyUrl now) w0 with
  | Outcome.fault w1 => Outcome.fault w1
  | Outcome.ret popog w1 =>
    let result := popog.parsed
    if eqFalse (index result (lit "ok")) then Outcome.ret [] w1
    else
      match asSlice (index result (lit "messages")) with
      | none => Outcome.fault w1
      | some messages => getSlackMessagesLoop lib slackType uniqueID messages [] w1

/-- The chain
`msg["files"].([]interface{})[0].(map[string]interface{})["url_private_download"].(string)`;
`none` is the run-time panic of any of its steps. -/
def urlPrivateDownload (msg : Obj) : Option GoString :=
  match asSlice (index msg (lit "files")) with
  | none => none
  | some files =>
    match files.head? with
    | none => none
    | some f =>
      match asMap f with
      | none => none
      | some file => asString (index file (lit "url_private_download"))

/-- The `for i := range messages` loop of `getSlacks`. -/
def getSlacksLoop (lib : GoLib) (slackType uniqueID : GoString) :
    List Value → List GoString → World → Outcome (List GoString)
  | [], contents, w => Outcome.ret contents w
  | m :: rest, contents, w =>
    match asMap m with
    | none => Outcome.fault w
    | some msg =>
      let text := sprintS lib (index msg (lit "text"))
      if isMatch slackType uniqueID text then
        match urlPrivateDownload msg with
        | none => Outcome.fault w
        | some url_file =>
          match get_request url_file w with
          | Outcome.fault w1 => Outcome.fault w1
          | Outcome.ret file w1 =>
            match deleteUnlessPayloads slackType msg w1 with
            | Outcome.fault w2 => Outcome.fault w2
            | Outcome.ret _ w2 =>
              getSlacksLoop lib slackType uniqueID rest (contents ++ [file.raw]) w2
      else getSlacksLoop lib slackType uniqueID rest contents w

/-- `getSlacks`: attachment retrieval. -/
def getSlacks (lib : GoLib) (slackType uniqueID : GoString) (w : World) :
    Outcome (List GoString) :=
  let (now, w0) := timeNow w
  match get_request (historyUrl now) w0 with
  | Outcome.fault w1 => Outcome.fault w1
  | Outcome.ret popog w1 =>
    let result := popog.parsed
    if eqFalse (index result (lit "ok")) then Outcome.ret [] w1
    else
      match asSlice (index result (lit "messages")) with
      | none => Outcome.fault w1
      | some messages => getSlacksLoop lib slackType uniqueID messages [] w1

/-! ## Heartbeat and beacon -/

/-- `createHeartbeatSlack`. -/
def createHeartbeatSlack (lib : GoLib) (slackType : GoString) (profile : Obj) (w : World) :
    Outcome Bool :=
  match lib.jsonMarshal profile with
  | none => Outcome.ret false w
  | some data =>
    match asString (index profile (lit "paw")) with
    | none => Outcome.fault w
    | some paw =>
      let slackName := getSlackDescriptor slackType paw
      let slackDescription := slackName
      match createSlack slackName slackDescription data w with
      | Outcome.fault w1 => Outcome.fault w1
      | Outcome.ret ok w1 => if ok != true then Outcome.ret false w1 else Outcome.ret true w1

/-- The loop `for failCount < beaconResponseFailThreshold` of `slackBeacon`; the
first argument is the number of attempts left,
`beaconResponseFailThreshold - failCount`.  The result is the decoded
instruction, `none` being the `nil` slice. -/
def slackBeaconLoop (lib : GoLib) (profile : Obj) : Nat → World → Outcome (Option (List Byte))
  | 0, w => Outcome.ret none w
  | n + 1, w =>
    match asString (index profile (lit "paw")) with
    | none => Outcome.fault w
    | some paw =>
      match getSlackMessages lib (lit "instructions") paw w with
      | Outcome.fault w1 => Outcome.fault w1
      | Outcome.ret contents w1 =>
        match contents with
        | c0 :: _ => Outcome.ret (DecodeString c0) w1
        | [] => slackBeaconLoop lib profile n (sleep beaconWait w1)

/-- `slackBeacon`: the bytes (`none` for `nil`) and the heartbeat flag. -/
def slackBeacon (lib : GoLib) (profile : Obj) (w : World) :
    Outcome (Option (List Byte) × Bool) :=
  match createHeartbeatSlack lib (lit "beacon") profile w with
  | Outcome.fault w1 => Outcome.fault w1
  | Outcome.ret heartbeat w1 =>
    if heartbeat then
      match slackBeaconLoop lib profile beaconResponseFailThreshold w1 with
      | Outcome.fault w2 => Outcome.fault w2
      | Outcome.ret bites w2 => Outcome.ret (bites, heartbeat) w2
    else Outcome.ret (none, heartbeat) w1

/-- `checkValidSleepInterval`. -/
def checkValidSleepInterval (profile : Obj) (w : World) : World :=
  if eqInt (index profile (lit "sleep")) slackTimeout then sleep slackTimeoutResetInterval w
  else w

/-- `GetBeaconBytes`; `none` is the `nil` slice. -/
def GetBeaconBytes (lib : GoLib) (profile : Obj) (w : World) : Outcome (Option (List Byte)) :=
  match slackBeacon lib profile (checkValidSleepInterval profile w) with
  | Outcome.fault w1 => Outcome.fault w1
  | Outcome.ret (bites, heartbeat) w1 =>
    if heartbeat = true then Outcome.ret bites w1 else Outcome.ret none w1

/-! ## Payload download -/

/-- The test `_, ok := m[key]`. -/
def hasKey (m : Obj) (key : GoString) : Bool := m.any (fun kv => decide (kv.1 = key))

/-- `GetPayloadBytes`: the payload bytes (`none` for `nil`) and the name. -/
def GetPayloadBytes (lib : GoLib) (profile : Obj) (payloadName : GoString) (w : World) :
    Outcome (Option (List Byte) × GoString) :=
  if !hasKey profile (lit "paw") then Outcome.ret (none, []) w
  else
    match asString (index profile (lit "paw")) with
    | none => Outcome.fault w
    | some paw =>
      match getSlacks lib (lit "payloads") (paw ++ lit "-" ++ payloadName) w with
      | Outcome.fault w1 => Outcome.fault w1
      | Outcome.ret payloads w1 =>
        match payloads.head? with
        | none => Outcome.fault w1
        | some p0 =>
          if p0 ≠ [] then
            match DecodeString p0 with
            | none => Outcome.ret (none, []) w1
            | some payloadBytes => Outcome.ret (some payloadBytes, payloadName) w1
          else Outcome.ret (none, payloadName) w1

/-! ## Chunked upload -/

/-- A finite, non-negative `float64`: the number `mant * 2 ^ exp`. -/
structure F64 where
  mant : Nat
  exp : Int
  deriving DecidableEq

/-- Binary logarithm, rounded down, by halving at most `fuel` times. -/
def log2Fuel : Nat → Nat → Nat
  | 0, _ => 0
  | fuel + 1, n => if n < 2 then 0 else log2Fuel fuel (n / 2) + 1

/-- Position of the leading bit of `n` (0 for 0). -/
def ilog2 (n : Nat) : Nat := log2Fuel n n

/-- The quotient `num / den` rounded to the nearest integer, ties to even. -/
def roundHalfEven (num den : Nat) : Nat :=
  let q := num / den
  let r := num % den
  if 2 * r > den ∨ (2 * r = den ∧ q % 2 = 1) then q + 1 else q

/-- The scaling exponent `t` of the quotient `n / d`: the one that puts
`n * 2 ^ t / d` between `2 ^ 52` and `2 ^ 53`. -/
def scaleExp (n d : Nat) : Int :=
  let t0 : Int := 52 - ((ilog2 n : Int) - (ilog2 d : Int))
  if (n * 2 ^ t0.toNat) / (d * 2 ^ (-t0).toNat) < 2 ^ 52 then t0 + 1 else t0

/-- The quotient `n / d` rounded to the nearest `float64`, ties to even (for
`d > 0` and a quotient in the normal range): a significand of 53 bits. -/
def roundRat (n d : Nat) : F64 :=
  if n = 0 then { mant := 0, exp := 0 }
  else
    let t := scaleExp n d
    { mant := roundHalfEven (n * 2 ^ t.toNat) (d * 2 ^ (-t).toNat), exp := -t }

/-- The conversion `float64(n)` of a non-negative `int`. -/
def F64.ofNat (n : Nat) : F64 := roundRat n 1

/-- The `float64` division `a / b`, `b` not zero. -/
def F64.div (a b : F64) : F64 :=
  roundRat (a.mant * 2 ^ (a.exp - b.exp).toNat) (b.mant * 2 ^ (b.exp - a.exp).toNat)

/-- The conversion `int(math.Ceil(f))`. -/
def F64.ceilInt (f : F64) : Nat :=
  if 0 ≤ f.exp then f.mant * 2 ^ f.exp.toNat
  else (f.mant + 2 ^ (-f.exp).toNat - 1) / 2 ^ (-f.exp).toNat

/-- The chunk count of `UploadFileBytes`:
`int(math.Ceil(float64(dataSize) / float64(maxDataChunkSize)))`. -/
def numChunksOf (dataSize : Nat) : Nat :=
  F64.ceilInt (F64.div (F64.ofNat dataSize) (F64.ofNat maxDataChunkSize))

/-- `getSlackNameForUpload`. -/
def getSlackNameForUpload (paw : GoString) : GoString := getSlackDescriptor (lit "upload") paw

/-- `getSlackDescriptionForUpload`: `fmt.Sprintf("upload:%s:%s:%d:%d", ...)`. -/
def getSlackDescriptionForUpload (uploadId encodedFilename : GoString)
    (chunkNum totalChunks : Nat) : GoString :=
  lit "upload:" ++ uploadId ++ lit ":" ++ encodedFilename ++ lit ":" ++
    fmtD chunkNum ++ lit ":" ++ fmtD totalChunks

/-- The text of the error that `uploadFileChunk` returns. -/
def uploadError : GoString :=
  lit "Failed to create file upload SLACK. Response code: %!s(bool=false)"

/-- `uploadFileChunk`: `none` is the `nil` error. -/
def uploadFileChunk (slackName slackDescription : GoString) (data : List Byte) (w : World) :
    Outcome (Option GoString) :=
  match createSlack slackName slackDescription data w with
  | Outcome.fault w1 => Outcome.fault w1
  | Outcome.ret result w1 =>
    if result != true then Outcome.ret (some uploadError) w1 else Outcome.ret none w1

/-- The slice expression `data[start:stop]`; `none` is the run-time panic. -/
def sliceBytes (data : List Byte) (start stop : Nat) : Option (List Byte) :=
  if start ≤ stop ∧ stop ≤ data.length then some ((data.drop start).take (stop - start))
  else none

/-- The loop `for i := 0; i < numChunks; i++` of `UploadFileBytes`; the first
argument is the number of rounds left, `numChunks - i`. -/
def uploadLoop (slackName uploadId encodedFilename : GoString) (data : List Byte)
    (numChunks : Nat) : Nat → Nat → Nat → World → Outcome (Option GoString)
  | 0, _, _, w => Outcome.ret none w
  | n + 1, i, start, w =>
    let stop0 := start + maxDataChunkSize
    let stop := if stop0 > data.length then data.length else stop0
    match sliceBytes data start stop with
    | none => Outcome.fault w
    | some chunk =>
      let slackDescription := getSlackDescriptionForUpload uploadId encodedFilename (i + 1) numChunks
      match uploadFileChunk slackName slackDescription chunk w with
      | Outcome.fault w1 => Outcome.fault w1
      | Outcome.ret (some err) w1 => Outcome.ret (some err) w1
      | Outcome.ret none w1 =>
        uploadLoop slackName uploadId encodedFilename data numChunks n (i + 1)
          (start + maxDataChunkSize) w1

/-- `UploadFileBytes`; `randInt` is the value that `rand.Int()` gives to
`getNewUploadId`, and the result `none` is the `nil` error. -/
def UploadFileBytes (profile : Obj) (uploadName : GoString) (data : List Byte) (randInt : Nat)
    (w : World) : Outcome (Option GoString) :=
  let encodedFilename := EncodeToString uploadName
  match asString (index profile (lit "paw")) with
  | none => Outcome.fault w
  | some paw =>
    let uploadId := fmtD randInt
    let numChunks := numChunksOf data.length
    let slackName := getSlackNameForUpload paw
    uploadLoop slackName uploadId encodedFilename data numChunks numChunks 0 0 w

/-! ## Vocabulary of the statements -/

/-- The payload that the receiving side recovers from a message text: element 1
of `strings.SplitN(text, " | ", 2)` (`getSlackMessages`), base64-decoded
(`slackBeacon`); `none` when either step fails. -/
def decodeFrame (text : GoString) : Option (List Byte) :=
  ((SplitN2 text (lit " | ")).get? 1).bind DecodeString

/-- Number of GET calls in a trace. -/
def countGets : List Event → Nat
  | [] => 0
  | Event.get _ :: rest => countGets rest + 1
  | _ :: rest => countGets rest

/-- The bodies of the `chat.delete` calls in a trace, oldest first. -/
def deletesOf : List Event → List Obj
  | [] => []
  | Event.post address body :: rest =>
    if address = deleteUrl then body :: deletesOf rest else deletesOf rest
  | _ :: rest => deletesOf rest

/-- The messages of a history that the filter matches, in history order. -/
def matchedOf (lib : GoLib) (slackType uniqueID : GoString) : List Value → List Obj
  | [] => []
  | m :: rest =>
    match asMap m with
    | some msg =>
      if isMatch slackType uniqueID (sprintS lib (index msg (lit "text"))) then
        msg :: matchedOf lib slackType uniqueID rest
      else matchedOf lib slackType uniqueID rest
    | none => matchedOf lib slackType uniqueID rest

/-- The reply is a response whose `ok` field is the boolean `true`. -/
def reportsOk : Reply → Bool
  | Reply.body b =>
    match index b.parsed (lit "ok") with
    | Value.bool true => true
    | _ => false
  | _ => false

/-- The reply is a response whose `ok` field is the boolean `false`. -/
def reportsFailure : Reply → Bool
  | Reply.body b =>
    match index b.parsed (lit "ok") with
    | Value.bool false => true
    | _ => false
  | _ => false

/-- The reply carries no boolean `ok`: the call returned no bytes, or a body whose
`ok` is absent or not a boolean. -/
def givesNoVerdict : Reply → Bool
  | Reply.failed => true
  | Reply.body b => (asBool (index b.parsed (lit "ok"))).isNone
  | Reply.badRequest => false

/-- The entry of `messages` is an object whose text the filter does not match. -/
def unmatched (lib : GoLib) (slackType uniqueID : GoString) (m : Value) : Bool :=
  match asMap m with
  | some msg => !isMatch slackType uniqueID (sprintS lib (index msg (lit "text")))
  | none => false

/-- A history reply on which a poll for instructions finds nothing: it reports
`ok: false`, or lists only messages that the filter does not match. -/
def noInstruction (lib : GoLib) (paw : GoString) : Reply → Bool
  | Reply.body b =>
    eqFalse (index b.parsed (lit "ok")) ||
      (match asSlice (index b.parsed (lit "messages")) with
       | some messages => messages.all (unmatched lib (lit "instructions") paw)
       | none => false)
  | _ => false

/-- The `chat.postMessage` call that carries chunk `j` (counted from 0) of an
upload by the agent `paw`. -/
def chunkEvent (paw : GoString) (data : List Byte) (j : Nat) : Event :=
  Event.post postMessageUrl
    (postMessageBody (getSlackNameForUpload paw)
      ((data.drop (j * maxDataChunkSize)).take maxDataChunkSize))

/-! ## Data of the worked examples -/

/-- The JSON text of the sample profile, `{"paw":"abc"}`. -/
def sampleProfileJson : List Byte := lit "\x7b\x22paw\x22:\x22abc\x22\x7d"

/-- A standard library for the worked examples: they print strings only, and the
one profile they marshal is the sample profile. -/
def sampleLib : GoLib :=
  { sprintOther := fun _ => lit "%!s(<nil>)", jsonMarshal := fun _ => some sampleProfileJson }

/-- A profile `{"paw": "abc"}`. -/
def sampleProfile : Obj := [(lit "paw", Value.str (lit "abc"))]

/-- A message `{"text": ..., "ts": ...}` without attachment. -/
def textMessage (text ts : GoString) : Value :=
  Value.map [(lit "text", Value.str text), (lit "ts", Value.str ts)]

/-- A history response `{"ok": true, "messages": [...]}`, given by the object it
decodes to; its bytes, which the callers only log, are left out. -/
def history (messages : List Value) : Reply :=
  Reply.body
    { raw := [], parsed := [(lit "ok", Value.bool true), (lit "messages", Value.slice messages)] }

/-- An API response `{"ok": true}`, given by the object it decodes to. -/
def okReply : Reply := Reply.body { raw := [], parsed := [(lit "ok", Value.bool true)] }

/-- An API response `{"ok": false}`, given by the object it decodes to. -/
def notOkReply : Reply := Reply.body { raw := [], parsed := [(lit "ok", Value.bool false)] }

/-! # Properties -/

/-! ## Base64: decoding inverts encoding -/

theorem decodeMap_encChar_fin : ∀ v : Fin 64, decodeMap (encChar v.val) = some v.val := by decide

theorem decodeMap_encChar (v : Nat) (h : v < 64) : decodeMap (encChar v) = some v :=
  decodeMap_encChar_fin ⟨v, h⟩

theorem decodeMap_padChar : decodeMap padChar = none := by decide

theorem ofNat_byte (x : Nat) (a : Byte) (h : x % 256 = a.val) : (Fin.ofNat x : Byte) = a := by
  apply Fin.ext
  simpa [Fin.ofNat] using h

theorem quantum4 (a b c : Byte) :
    quantumBytes
      [(a.val * 65536 + b.val * 256 + c.val) / 262144 % 64,
       (a.val * 65536 + b.val * 256 + c.val) / 4096 % 64,
       (a.val * 65536 + b.val * 256 + c.val) / 64 % 64,
       (a.val * 65536 + b.val * 256 + c.val) % 64] 4 = [a, b, c] := by
  have ha := a.isLt
  have hb := b.isLt
  have hc := c.isLt
  simp only [quantumBytes, List.getD_cons_zero, List.getD_cons_succ]
  have e1 : (Fin.ofNat (((a.val * 65536 + b.val * 256 + c.val) / 262144 % 64 * 262144 +
      (a.val * 65536 + b.val * 256 + c.val) / 4096 % 64 * 4096 +
      (a.val * 65536 + b.val * 256 + c.val) / 64 % 64 * 64 +
      (a.val * 65536 + b.val * 256 + c.val) % 64) / 65536) : Byte) = a :=
    ofNat_byte _ _ (by omega)
  have e2 : (Fin.ofNat (((a.val * 65536 + b.val * 256 + c.val) / 262144 % 64 * 262144 +
      (a.val * 65536 + b.val * 256 + c.val) / 4096 % 64 * 4096 +
      (a.val * 65536 + b.val * 256 + c.val) / 64 % 64 * 64 +
      (a.val * 65536 + b.val * 256 + c.val) % 64) / 256) : Byte) = b :=
    ofNat_byte _ _ (by omega)
  have e3 : (Fin.ofNat (((a.val * 65536 + b.val * 256 + c.val) / 262144 % 64 * 262144 +
      (a.val * 65536 + b.val * 256 + c.val) / 4096 % 64 * 4096 +
      (a.val * 65536 + b.val * 256 + c.val) / 64 % 64 * 64 +
      (a.val * 65536 + b.val * 256 + c.val) % 64)) : Byte) = c :=
    ofNat_byte _ _ (by omega)
  rw [e1, e2, e3]
  rfl
theorem quantum3 (a b : Byte) :
    quantumBytes
      [(a.val * 65536 + b.val * 256) / 262144 % 64,
       (a.val * 65536 + b.val * 256) / 4096 % 64,
       (a.val * 65536 + b.val * 256) / 64 % 64] 3 = [a, b] := by
  have ha := a.isLt
  have hb := b.isLt
  simp only [quantumBytes, List.getD_cons_zero, List.getD_cons_succ, List.getD_nil]
  have e1 : (Fin.ofNat (((a.val * 65536 + b.val * 256) / 262144 % 64 * 262144 +
      (a.val * 65536 + b.val * 256) / 4096 % 64 * 4096 +
      (a.val * 65536 + b.val * 256) / 64 % 64 * 64 + 0) / 65536) : Byte) = a :=
    ofNat_byte _ _ (by omega)
  have e2 : (Fin.ofNat (((a.val * 65536 + b.val * 256) / 262144 % 64 * 262144 +
      (a.val * 65536 + b.val * 256) / 4096 % 64 * 4096 +
      (a.val * 65536 + b.val * 256) / 64 % 64 * 64 + 0) / 256) : Byte) = b :=
    ofNat_byte _ _ (by omega)
  rw [e1, e2]
  rfl

theorem quantum2 (a : Byte) :
    quantumBytes [(a.val * 65536) / 262144 % 64, (a.val * 65536) / 4096 % 64] 2 = [a] := by
  have ha := a.isLt
  simp only [quantumBytes, List.getD_cons_zero, List.getD_cons_succ, List.getD_nil]
  have e1 : (Fin.ofNat (((a.val * 65536) / 262144 % 64 * 262144 +
      (a.val * 65536) / 4096 % 64 * 4096 + 0 * 64 + 0) / 65536) : Byte) = a :=
    ofNat_byte _ _ (by omega)
  rw [e1]
  rfl

theorem decodeFrom_group (v0 v1 v2 v3 : Nat) (h0 : v0 < 64) (h1 : v1 < 64) (h2 : v2 < 64)
    (h3 : v3 < 64) (rest : GoString) :
    decodeFrom (encChar v0 :: encChar v1 :: encChar v2 :: encChar v3 :: rest) [] =
      (decodeFrom rest []).map (fun tl => quantumBytes [v0, v1, v2, v3] 4 ++ tl) := by
  simp [decodeFrom, decodeMap_encChar, h0, h1, h2, h3]

theorem decodeFrom_pad1 (v0 v1 v2 : Nat) (h0 : v0 < 64) (h1 : v1 < 64) (h2 : v2 < 64) :
    decodeFrom [encChar v0, encChar v1, encChar v2, padChar] [] =
      some (quantumBytes [v0, v1, v2] 3) := by
  have hp : decodeMap 61 = none := decodeMap_padChar
  simp [decodeFrom, decodeMap_encChar, h0, h1, h2, hp, isNewline, padChar, skipNewlines]

theorem decodeFrom_pad2 (v0 v1 : Nat) (h0 : v0 < 64) (h1 : v1 < 64) :
    decodeFrom [encChar v0, encChar v1, padChar, padChar] [] =
      some (quantumBytes [v0, v1] 2) := by
  have hp : decodeMap 61 = none := decodeMap_padChar
  simp [decodeFrom, decodeMap_encChar, h0, h1, hp, isNewline, padChar, skipNewlines]

/-- Decoding inverts encoding. -/
theorem decode_encode (p : List Byte) : DecodeString (EncodeToString p) = some p := by
  unfold DecodeString
  induction p using EncodeToString.induct with
  | case1 a b c rest ih =>
    have h := decodeFrom_group ((a.val * 65536 + b.val * 256 + c.val) / 262144 % 64)
      ((a.val * 65536 + b.val * 256 + c.val) / 4096 % 64)
      ((a.val * 65536 + b.val * 256 + c.val) / 64 % 64)
      ((a.val * 65536 + b.val * 256 + c.val) % 64)
      (Nat.mod_lt _ (by decide)) (Nat.mod_lt _ (by decide)) (Nat.mod_lt _ (by decide))
      (Nat.mod_lt _ (by decide)) (EncodeToString rest)
    simp only [EncodeToString]
    rw [h, ih]
    simp only [Option.map_some']
    rw [quantum4]
    rfl
  | case2 a b =>
    simp only [EncodeToString]
    rw [decodeFrom_pad1 _ _ _ (Nat.mod_lt _ (by decide)) (Nat.mod_lt _ (by decide))
      (Nat.mod_lt _ (by decide)), quantum3]
  | case3 a =>
    simp only [EncodeToString]
    rw [decodeFrom_pad2 _ _ (Nat.mod_lt _ (by decide)) (Nat.mod_lt _ (by decide)), quantum2]
  | case4 => rfl

/-! ## String search -/

theorem isPrefixOf_iff (a b : GoString) : a.isPrefixOf b = true ↔ a <+: b :=
  List.isPrefixOf_iff_prefix

theorem indexFrom_bound (sub : GoString) :
    ∀ (s : GoString) (i : Nat), indexFrom sub s = some i → i + sub.length ≤ s.length := by
  intro s
  induction s with
  | nil =>
    intro i h
    simp only [indexFrom] at h
    split at h
    · rename_i h0
      cases h
      simp [h0]
    · cases h
  | cons c s ih =>
    intro i h
    simp only [indexFrom] at h
    split at h
    · rename_i hp
      cases h
      have := ((isPrefixOf_iff _ _).1 hp).length_le
      simpa using this
    · cases hs : indexFrom sub s with
      | none => simp [hs] at h
      | some j =>
        simp [hs] at h
        have := ih j hs
        subst h
        simp only [List.length_cons]
        omega

theorem indexFrom_append (sub : GoString) (y : GoString) :
    ∀ (x : GoString) (i : Nat), indexFrom sub x = some i → indexFrom sub (x ++ y) = some i := by
  intro x
  induction x with
  | nil =>
    intro i h
    simp only [indexFrom] at h
    split at h
    · rename_i h0
      cases h
      subst h0
      cases y with
      | nil => simp [indexFrom]
      | cons d y => simp [indexFrom, List.isPrefixOf]
    · cases h
  | cons c s ih =>
    intro i h
    simp only [indexFrom] at h
    split at h
    · rename_i hp
      cases h
      have h1 : sub <+: (c :: s) ++ y := ((isPrefixOf_iff _ _).1 hp).trans (List.prefix_append _ _)
      show indexFrom sub (c :: (s ++ y)) = some 0
      rw [indexFrom, if_pos ((isPrefixOf_iff _ _).2 (by simpa using h1))]
    · rename_i hp
      cases hs : indexFrom sub s with
      | none => simp [hs] at h
      | some j =>
        simp [hs] at h
        have hb := indexFrom_bound sub s j hs
        have hnp : ¬ (sub.isPrefixOf (c :: (s ++ y)) = true) := by
          intro hq
          have hq1 : sub <+: (c :: s) ++ y := by simpa using (isPrefixOf_iff _ _).1 hq
          have hq2 : sub <+: c :: s := by
            apply List.prefix_of_prefix_length_le hq1 (List.prefix_append _ _)
            simp only [List.length_cons]
            omega
          exact hp ((isPrefixOf_iff _ _).2 hq2)
        show indexFrom sub (c :: (s ++ y)) = some i
        rw [indexFrom, if_neg hnp, ih j hs]
        simp [h]

theorem Index_eq_zero_iff (s sub : GoString) : Index s sub = 0 ↔ sub <+: s := by
  unfold Index
  cases s with
  | nil =>
    simp only [indexFrom]
    by_cases h : sub = []
    · simp [h]
    · simp [h]
  | cons c s =>
    simp only [indexFrom]
    by_cases hp : sub.isPrefixOf (c :: s) = true
    · rw [if_pos hp]
      simp only [Nat.cast_zero, true_iff]
      exact (isPrefixOf_iff _ _).1 hp
    · rw [if_neg hp]
      have hn : ¬ sub <+: c :: s := fun h => hp ((isPrefixOf_iff _ _).2 h)
      cases hs : indexFrom sub s with
      | none => simp [hn]
      | some j =>
        simp only [Option.map_some', hn, iff_false]
        omega

theorem SplitN2_frame (slackName rest : GoString)
    (h : Index (slackName ++ lit " | ") (lit " | ") = slackName.length) :
    SplitN2 (slackName ++ lit " | " ++ rest) (lit " | ") = [slackName, rest] := by
  have h1 : indexFrom (lit " | ") (slackName ++ lit " | ") = some slackName.length := by
    unfold Index at h
    cases hs : indexFrom (lit " | ") (slackName ++ lit " | ") with
    | none => simp [hs] at h
    | some j =>
      simp [hs] at h
      simp [h]
  have h2 := indexFrom_append (lit " | ") rest _ _ h1
  unfold SplitN2
  rw [h2]
  simp [List.take_append_eq_append_take, List.drop_append_eq_append_drop]

theorem decodeMap_space : decodeMap 32 = none := by decide

theorem mem_skipNewlines (s : GoString) (h : (32 : Byte) ∈ s) : (32 : Byte) ∈ skipNewlines s := by
  induction s with
  | nil => cases h
  | cons c rest ih =>
    simp only [skipNewlines]
    split
    · rename_i hc
      rcases List.mem_cons.1 h with h1 | h1
      · subst h1
        exact absurd hc (by decide)
      · exact ih h1
    · exact h

/-- A text that contains a space is rejected by the decoder. -/
theorem decodeFrom_space : ∀ (s : GoString) (dbuf : List Nat), (32 : Byte) ∈ s →
    decodeFrom s dbuf = none := by
  intro s
  induction s with
  | nil =>
    intro dbuf h
    cases h
  | cons c rest ih =>
    intro dbuf h
    rw [decodeFrom]
    cases hd : decodeMap c with
    | some out =>
      have hc : c ≠ 32 := by
        intro h32
        subst h32
        rw [decodeMap_space] at hd
        cases hd
      have hr : (32 : Byte) ∈ rest := by
        rcases List.mem_cons.1 h with h1 | h1
        · exact absurd h1.symm hc
        · exact h1
      simp only
      split
      · rw [ih _ hr]
        rfl
      · exact ih _ hr
    | none =>
      simp only
      by_cases hn : isNewline c = true
      · have hc : c ≠ 32 := by
          intro h32
          subst h32
          exact absurd hn (by decide)
        have hr : (32 : Byte) ∈ rest := by
          rcases List.mem_cons.1 h with h1 | h1
          · exact absurd h1.symm hc
          · exact h1
        rw [if_pos hn]
        exact ih _ hr
      · rw [if_neg hn]
        by_cases hp : c ≠ padChar
        · rw [if_pos hp]
        · rw [if_neg hp]
          have hc : c ≠ 32 := by
            intro h32
            subst h32
            exact hp (by decide)
          have hr : (32 : Byte) ∈ rest := by
            rcases List.mem_cons.1 h with h1 | h1
            · exact absurd h1.symm hc
            · exact h1
          have hs := mem_skipNewlines rest hr
          split
          · rfl
          · rfl
          · split
            · rfl
            · rename_i d rest2 heq
              by_cases hd2 : d ≠ padChar
              · rw [if_pos hd2]
              · rw [if_neg hd2]
                rw [heq] at hs
                have hr2 : (32 : Byte) ∈ rest2 := by
                  rcases List.mem_cons.1 hs with h1 | h1
                  · exfalso
                    apply hd2
                    rw [← h1]
                    decide
                  · exact h1
                have hs2 := mem_skipNewlines rest2 hr2
                have hne : skipNewlines rest2 ≠ [] := List.ne_nil_of_mem hs2
                rw [if_neg hne]
          · have hne : skipNewlines rest ≠ [] := List.ne_nil_of_mem hs
            rw [if_neg hne]

theorem indexFrom_self_append (sub : GoString) :
    ∀ x : GoString, ∃ m, indexFrom sub (x ++ sub) = some m ∧ m ≤ x.length := by
  intro x
  induction x with
  | nil =>
    refine ⟨0, ?_, Nat.le_refl _⟩
    cases sub with
    | nil => simp [indexFrom]
    | cons c s =>
      show indexFrom (c :: s) (c :: s) = some 0
      rw [indexFrom, if_pos ((isPrefixOf_iff _ _).2 (List.prefix_refl _))]
  | cons c x ih =>
    obtain ⟨m, hm, hle⟩ := ih
    show ∃ m, indexFrom sub (c :: (x ++ sub)) = some m ∧ m ≤ (c :: x).length
    rw [indexFrom]
    split
    · exact ⟨0, rfl, Nat.zero_le _⟩
    · refine ⟨m + 1, ?_, ?_⟩
      · rw [hm]
        rfl
      · simp only [List.length_cons]
        omega

theorem indexFrom_isPrefix (sub : GoString) :
    ∀ (s : GoString) (m : Nat), indexFrom sub s = some m → sub <+: s.drop m := by
  intro s
  induction s with
  | nil =>
    intro m h
    simp only [indexFrom] at h
    split at h
    · rename_i h0
      subst h0
      exact List.nil_prefix
    · cases h
  | cons c s ih =>
    intro m h
    simp only [indexFrom] at h
    split at h
    · rename_i hp
      cases h
      exact (isPrefixOf_iff _ _).1 hp
    · cases hs : indexFrom sub s with
      | none => simp [hs] at h
      | some j =>
        simp [hs] at h
        subst h
        exact ih j hs

/-- A name without a space is followed by the first ` | ` of its frame. -/
theorem Index_separator_of_no_space (slackName : GoString) (h : (32 : Byte) ∉ slackName) :
    Index (slackName ++ lit " | ") (lit " | ") = slackName.length := by
  obtain ⟨m, hm, hle⟩ := indexFrom_self_append (lit " | ") slackName
  have hp := indexFrom_isPrefix _ _ _ hm
  unfold Index
  rw [hm]
  by_cases hlt : m = slackName.length
  · simp [hlt]
  · exfalso
    have hm' : m < slackName.length := by omega
    apply h
    rw [List.drop_append_of_le_length hle] at hp
    have hne : List.drop m slackName ≠ [] := by
      intro h0
      have := congrArg List.length h0
      simp at this
      omega
    obtain ⟨d, tl, hd⟩ := List.exists_cons_of_ne_nil hne
    rw [hd] at hp
    obtain ⟨t, ht⟩ := hp
    have h32 : d = 32 := by
      have e : lit " | " = (32 : Byte) :: [124, 32] := by decide
      rw [e] at ht
      simp only [List.cons_append, List.cons.injEq] at ht
      exact ht.1.symm
    have hmem : d ∈ List.drop m slackName := by
      rw [hd]
      exact List.mem_cons_self _ _
    rw [← h32]
    exact List.mem_of_mem_drop hmem

/-! ## Sending -/

theorem createSlack_reportsOk (slackName description : GoString) (data : List Byte)
    (r : Reply) (rest : List Reply) (clock : List Int) (trace : List Event)
    (h : reportsOk r = true) :
    createSlack slackName description data { replies := r :: rest, clock := clock, trace := trace } =
      Outcome.ret true
        { replies := rest, clock := clock,
          trace := trace ++ [Event.post postMessageUrl (postMessageBody slackName data)] } := by
  cases r with
  | badRequest => cases h
  | failed => cases h
  | body b =>
    simp only [reportsOk] at h
    split at h
    · rename_i hok
      simp [createSlack, post_request, exchange, hok, asBool]
    · cases h

theorem createSlack_reportsFailure (slackName description : GoString) (data : List Byte)
    (r : Reply) (rest : List Reply) (clock : List Int) (trace : List Event)
    (h : reportsFailure r = true) :
    createSlack slackName description data { replies := r :: rest, clock := clock, trace := trace } =
      Outcome.ret false
        { replies := rest, clock := clock,
          trace := trace ++ [Event.post postMessageUrl (postMessageBody slackName data)] } := by
  cases r with
  | badRequest => cases h
  | failed => cases h
  | body b =>
    simp only [reportsFailure] at h
    split at h
    · rename_i hok
      simp [createSlack, post_request, exchange, hok, asBool]
    · cases h

/-! ## Chunked upload -/

theorem sliceBytes_chunk (data : List Byte) (start : Nat) (h : start ≤ data.length) :
    sliceBytes data start
        (if start + maxDataChunkSize > data.length then data.length
          else start + maxDataChunkSize) =
      some ((data.drop start).take maxDataChunkSize) := by
  unfold sliceBytes
  split
  · rename_i hgt
    rw [if_pos ⟨h, Nat.le_refl _⟩]
    congr 1
    rw [List.take_of_length_le (by simp), List.take_of_length_le (by simp; omega)]
  · rename_i hle
    rw [if_pos ⟨by omega, by omega⟩]
    congr 2
    omega

theorem uploadLoop_abort (slackName uploadId encodedFilename : GoString) (data : List Byte)
    (numChunks : Nat) (rk : Reply) (rest : List Reply) (hfail : reportsFailure rk = true) :
    ∀ (pre : List Reply) (n i start : Nat) (clock : List Int) (trace : List Event),
      (∀ r ∈ pre, reportsOk r = true) → pre.length < n → start = i * maxDataChunkSize →
      (i + pre.length) * maxDataChunkSize ≤ data.length →
      uploadLoop slackName uploadId encodedFilename data numChunks n i start
          { replies := pre ++ rk :: rest, clock := clock, trace := trace } =
        Outcome.ret (some uploadError)
          { replies := rest, clock := clock,
            trace := trace ++ (List.range' i (pre.length + 1)).map (fun j =>
              Event.post postMessageUrl (postMessageBody slackName
                ((data.drop (j * maxDataChunkSize)).take maxDataChunkSize))) } := by
  intro pre
  induction pre with
  | nil =>
    intro n i start clock trace _ hn hstart hsize
    obtain ⟨n, rfl⟩ : ∃ n', n = n' + 1 := ⟨n - 1, by simp at hn; omega⟩
    have hs : start ≤ data.length := by
      simp only [List.length_nil, Nat.add_zero] at hsize
      omega
    rw [uploadLoop]
    simp only
    rw [sliceBytes_chunk data start hs]
    simp only [uploadFileChunk, List.nil_append]
    rw [createSlack_reportsFailure _ _ _ _ _ _ _ hfail]
    simp [hstart]
  | cons r pre ih =>
    intro n i start clock trace hpre hn hstart hsize
    obtain ⟨n, rfl⟩ : ∃ n', n = n' + 1 := ⟨n - 1, by simp at hn; omega⟩
    have hle : i * maxDataChunkSize ≤ (i + (r :: pre).length) * maxDataChunkSize :=
      Nat.mul_le_mul_right _ (Nat.le_add_right _ _)
    have hs : start ≤ data.length := by omega
    rw [uploadLoop]
    simp only
    rw [sliceBytes_chunk data start hs]
    simp only [uploadFileChunk, List.cons_append]
    rw [createSlack_reportsOk _ _ _ _ _ _ _ (hpre r (List.mem_cons_self _ _))]
    simp only [bne_self_eq_false, Bool.false_eq_true, if_false]
    rw [ih n (i + 1) (start + maxDataChunkSize) clock _
      (fun r' hr' => hpre r' (List.mem_cons_of_mem _ hr'))
      (by simp only [List.length_cons] at hn; omega)
      (by rw [hstart, Nat.add_mul]; simp)
      (by simp only [List.length_cons] at hsize; rw [show i + 1 + pre.length = i + (pre.length + 1) by omega]; exact hsize)]
    simp only [List.length_cons, List.append_assoc, List.singleton_append]
    rw [List.range'_succ i (pre.length + 1)]
    simp [hstart]

/-! ## The chunk count in floating point -/

theorem log2Fuel_bounds : ∀ (fuel n : Nat), n ≤ fuel → n ≠ 0 →
    2 ^ log2Fuel fuel n ≤ n ∧ n < 2 ^ (log2Fuel fuel n + 1) := by
  intro fuel
  induction fuel with
  | zero =>
    intro n hle hn
    omega
  | succ f ih =>
    intro n hle hn
    simp only [log2Fuel]
    split
    · simp
      omega
    · have h := ih (n / 2) (by omega) (by omega)
      rw [Nat.pow_succ, Nat.pow_succ]
      rw [Nat.pow_succ] at h
      omega

theorem ilog2_le (n e : Nat) (h : n < 2 ^ (e + 1)) : ilog2 n ≤ e := by
  by_cases hn : n = 0
  · subst hn
    simp [ilog2, log2Fuel]
  · have hb := (log2Fuel_bounds n n (Nat.le_refl _) hn).1
    have hlt : 2 ^ ilog2 n < 2 ^ (e + 1) := Nat.lt_of_le_of_lt hb h
    have := (Nat.pow_lt_pow_iff_right (by decide : 1 < 2)).1 hlt
    omega

theorem le_ilog2 (n e : Nat) (h : 2 ^ e ≤ n) : e ≤ ilog2 n := by
  have hn : n ≠ 0 := by
    have : 0 < 2 ^ e := Nat.two_pow_pos e
    omega
  have hb := (log2Fuel_bounds n n (Nat.le_refl _) hn).2
  have hlt : 2 ^ e < 2 ^ (ilog2 n + 1) := Nat.lt_of_le_of_lt h hb
  have := (Nat.pow_lt_pow_iff_right (by decide : 1 < 2)).1 hlt
  omega

theorem scaleExp_ge (n d : Nat) : 52 - ((ilog2 n : Int) - (ilog2 d : Int)) ≤ scaleExp n d := by
  unfold scaleExp
  simp only
  split <;> omega

theorem roundHalfEven_one (x : Nat) : roundHalfEven x 1 = x := by
  simp [roundHalfEven, Nat.mod_one]

theorem roundHalfEven_cancel (a b k : Nat) (hk : 0 < k) :
    roundHalfEven (a * k) (b * k) = roundHalfEven a b := by
  unfold roundHalfEven
  simp only
  rw [Nat.mul_div_mul_right a b hk, Nat.mul_mod_mul_right]
  have e1 : (2 * (a % b * k) > b * k) ↔ (2 * (a % b) > b) := by
    rw [← Nat.mul_assoc]
    exact Nat.mul_lt_mul_right hk
  have e2 : (2 * (a % b * k) = b * k) ↔ (2 * (a % b) = b) := by
    rw [← Nat.mul_assoc]
    exact Nat.mul_left_inj (Nat.pos_iff_ne_zero.1 hk)
  simp only [e1, e2]

/-- Rounding to nearest and then upwards to a multiple of `p` agrees with the exact
ceiling as soon as the grid is finer than half the divisor. -/
theorem ceil_roundHalfEven (s p c : Nat) (hc : 0 < c) (hp : c < 2 * p) :
    (roundHalfEven (s * p) c + p - 1) / p = (s + c - 1) / c := by
  have hp0 : 0 < p := by omega
  have hs : s = c * (s / c) + s % c := (Nat.div_add_mod s c).symm
  have hr : s % c < c := Nat.mod_lt _ hc
  generalize s / c = k at hs
  generalize s % c = r at hs hr
  subst hs
  have hR : (c * k + r + c - 1) / c = if r = 0 then k else k + 1 := by
    split
    · rename_i h0
      subst h0
      have : c * k + 0 + c - 1 = (c - 1) + c * k := by omega
      rw [this, Nat.add_mul_div_left _ _ hc, Nat.div_eq_of_lt (by omega)]
      omega
    · have : c * k + r + c - 1 = (r - 1) + c * (k + 1) := by
        rw [Nat.mul_add]
        omega
      rw [this, Nat.add_mul_div_left _ _ hc, Nat.div_eq_of_lt (by omega)]
      omega
  rw [hR]
  have hnum : (c * k + r) * p = r * p + c * (k * p) := by ring
  unfold roundHalfEven
  simp only
  rw [hnum, Nat.add_mul_div_left _ _ hc, Nat.add_mul_mod_self_left]
  by_cases h0 : r = 0
  · subst h0
    simp only [Nat.zero_mul, Nat.zero_div, Nat.zero_mod, Nat.mul_zero, if_true, Nat.zero_add]
    have hfalse : ¬ (0 > c ∨ (0 = c ∧ k * p % 2 = 1)) := by omega
    rw [if_neg hfalse]
    have : k * p + p - 1 = (p - 1) + p * k := by
      rw [Nat.mul_comm k p]
      omega
    rw [this, Nat.add_mul_div_left _ _ hp0, Nat.div_eq_of_lt (by omega)]
    omega
  · rw [if_neg h0]
    have hrp1 : p ≤ r * p := Nat.le_mul_of_pos_left p (Nat.pos_of_ne_zero h0)
    have hrp2 : r * p < c * p := Nat.mul_lt_mul_of_pos_right hr hp0
    have hdiv := Nat.div_add_mod (r * p) c
    have hmod := Nat.mod_lt (r * p) hc
    have hqlt : r * p / c < p := by
      apply Nat.div_lt_of_lt_mul
      exact hrp2
    generalize r * p / c = a at hdiv hqlt
    generalize r * p % c = b at hdiv hmod
    generalize r * p = y at hrp1 hrp2 hdiv
    have key : ∀ m, k * p + 1 ≤ m → m ≤ k * p + p → (m + p - 1) / p = k + 1 := by
      intro m h1 h2
      have : m + p - 1 = (m - k * p - 1 + p) + p * k := by
        rw [Nat.mul_comm p k]
        omega
      rw [this, Nat.add_mul_div_left _ _ hp0]
      have : (m - k * p - 1 + p) / p = 1 := by
        apply Nat.div_eq_of_lt_le <;> omega
      omega
    have hca : c * a ≤ y := by omega
    split
    · apply key <;> omega
    · rename_i hno
      apply key
      · by_cases ha : a = 0
        · subst ha
          exfalso
          apply hno
          left
          omega
        · omega
      · omega

theorem ofNat_exact (s : Nat) (hs : s ≠ 0) (h : s < 2 ^ 53) :
    ∃ T : Nat, F64.ofNat s = { mant := s * 2 ^ T, exp := -(T : Int) } := by
  have hl : ilog2 s ≤ 52 := ilog2_le s 52 h
  have h1 : ilog2 1 = 0 := by decide
  have hge := scaleExp_ge s 1
  rw [h1] at hge
  have ht : 0 ≤ scaleExp s 1 := by omega
  refine ⟨(scaleExp s 1).toNat, ?_⟩
  unfold F64.ofNat roundRat
  rw [if_neg hs]
  simp only
  have e1 : (-(scaleExp s 1)).toNat = 0 := by omega
  rw [e1, Int.toNat_of_nonneg ht]
  simp [roundHalfEven_one]

theorem div_scaled (s M : Nat) (hs : s ≠ 0) (h : s < 2 ^ 53) :
    F64.ceilInt (roundRat (s * 2 ^ M) (maxDataChunkSize * 2 ^ M)) =
      (s + maxDataChunkSize - 1) / maxDataChunkSize := by
  have hM : 0 < 2 ^ M := Nat.two_pow_pos M
  have hN0 : s * 2 ^ M ≠ 0 := Nat.mul_ne_zero hs (Nat.pos_iff_ne_zero.1 hM)
  have hNlt : s * 2 ^ M < 2 ^ (52 + M + 1) := by
    have : 2 ^ (52 + M + 1) = 2 ^ 53 * 2 ^ M := by
      rw [← Nat.pow_add]
      congr 1
      omega
    rw [this]
    exact Nat.mul_lt_mul_of_pos_right h hM
  have hDge : 2 ^ (19 + M) ≤ maxDataChunkSize * 2 ^ M := by
    rw [Nat.pow_add]
    exact Nat.mul_le_mul_right _ (by decide)
  have hlN := ilog2_le _ _ hNlt
  have hlD := le_ilog2 _ _ hDge
  have hge := scaleExp_ge (s * 2 ^ M) (maxDataChunkSize * 2 ^ M)
  unfold roundRat
  rw [if_neg hN0]
  simp only
  generalize scaleExp (s * 2 ^ M) (maxDataChunkSize * 2 ^ M) = t at hge
  have ht : 19 ≤ t := by omega
  obtain ⟨T, rfl⟩ : ∃ T : Nat, t = (T : Int) := ⟨t.toNat, by omega⟩
  have hT : 19 ≤ T := by omega
  have e1 : (-(T : Int)).toNat = 0 := by omega
  have e2 : ((T : Int)).toNat = T := by omega
  rw [e1, e2]
  unfold F64.ceilInt
  simp only
  have hneg : ¬ (0 ≤ -(T : Int)) := by omega
  rw [if_neg hneg]
  have e3 : (-(-(T : Int))).toNat = T := by omega
  rw [e3]
  have e4 : s * 2 ^ M * 2 ^ T = (s * 2 ^ T) * 2 ^ M := by ring
  have e5 : maxDataChunkSize * 2 ^ M * 2 ^ 0 = maxDataChunkSize * 2 ^ M := by simp
  rw [e4, e5, roundHalfEven_cancel _ _ _ hM]
  apply ceil_roundHalfEven
  · decide
  · have : 2 ^ 19 ≤ 2 ^ T := Nat.pow_le_pow_right (by decide) hT
    have h19 : (2 : Nat) ^ 19 = 524288 := by decide
    have hc : maxDataChunkSize = 750000 := rfl
    omega

/-- The chunk count is the exact ceiling for every size below `2 ^ 53`. -/
theorem numChunksOf_eq (s : Nat) (h : s < 2 ^ 53) :
    numChunksOf s = (s + maxDataChunkSize - 1) / maxDataChunkSize := by
  by_cases hs : s = 0
  · subst hs
    decide
  · obtain ⟨T, hT⟩ := ofNat_exact s hs h
    have hC : F64.ofNat maxDataChunkSize = { mant := maxDataChunkSize * 2 ^ 33, exp := -33 } := by
      decide
    unfold numChunksOf
    rw [hT, hC]
    unfold F64.div
    simp only
    by_cases hT33 : T ≤ 33
    · have e1 : (-(T : Int) - -33).toNat = 33 - T := by omega
      have e2 : ((-33 : Int) - -(T : Int)).toNat = 0 := by omega
      rw [e1, e2]
      have e3 : s * 2 ^ T * 2 ^ (33 - T) = s * 2 ^ 33 := by
        rw [Nat.mul_assoc, ← Nat.pow_add]
        congr 2
        omega
      have e4 : maxDataChunkSize * 2 ^ 33 * 2 ^ 0 = maxDataChunkSize * 2 ^ 33 := by simp
      rw [e3, e4]
      exact div_scaled s 33 hs h
    · have e1 : (-(T : Int) - -33).toNat = 0 := by omega
      have e2 : ((-33 : Int) - -(T : Int)).toNat = T - 33 := by omega
      rw [e1, e2]
      have e3 : s * 2 ^ T * 2 ^ 0 = s * 2 ^ T := by simp
      have e4 : maxDataChunkSize * 2 ^ 33 * 2 ^ (T - 33) = maxDataChunkSize * 2 ^ T := by
        rw [Nat.mul_assoc, ← Nat.pow_add]
        congr 2
        omega
      rw [e3, e4]
      exact div_scaled s T hs h

/-! ## Polling -/

theorem countGets_append (a b : List Event) : countGets (a ++ b) = countGets a + countGets b := by
  induction a with
  | nil => simp [countGets]
  | cons e a ih =>
    cases e <;> simp [countGets, ih]
    omega

theorem exchange_post_gets (address : GoString) (body : Obj) (w : World) :
    countGets (exchange (Event.post address body) w).world.trace = countGets w.trace := by
  unfold exchange
  split <;> simp [Outcome.world, countGets_append, countGets]

theorem exchange_get_gets (address : GoString) (w : World) :
    countGets (exchange (Event.get address) w).world.trace ≤ countGets w.trace + 1 := by
  unfold exchange
  split <;> simp [Outcome.world, countGets_append, countGets]

theorem deleteUnlessPayloads_gets (slackType : GoString) (msg : Obj) (w : World) :
    countGets (deleteUnlessPayloads slackType msg w).world.trace = countGets w.trace := by
  unfold deleteUnlessPayloads
  split
  · have h := exchange_post_gets deleteUrl (deleteBody msg) w
    unfold post_request
    split
    · rename_i heq
      rw [heq] at h
      exact h
    · rename_i heq
      rw [heq] at h
      exact h
  · rfl

theorem getSlackMessagesLoop_gets (lib : GoLib) (slackType uniqueID : GoString) :
    ∀ (messages : List Value) (contents : List GoString) (w : World),
      countGets (getSlackMessagesLoop lib slackType uniqueID messages contents w).world.trace =
        countGets w.trace := by
  intro messages
  induction messages with
  | nil =>
    intro contents w
    rfl
  | cons m rest ih =>
    intro contents w
    rw [getSlackMessagesLoop]
    split
    · rfl
    · rename_i msg _
      simp only
      split
      · split
        · rfl
        · have hd := deleteUnlessPayloads_gets slackType msg w
          split
          · rename_i heq
            rw [heq] at hd
            exact hd
          · rename_i heq
            rw [heq] at hd
            rw [ih]
            exact hd
      · exact ih _ _

theorem timeNow_trace (w : World) : (timeNow w).2.trace = w.trace := by
  unfold timeNow
  split <;> rfl

theorem getSlackMessages_gets (lib : GoLib) (slackType uniqueID : GoString) (w : World) :
    countGets (getSlackMessages lib slackType uniqueID w).world.trace ≤ countGets w.trace + 1 := by
  unfold getSlackMessages
  simp only
  have h := exchange_get_gets (historyUrl (timeNow w).1) (timeNow w).2
  rw [timeNow_trace] at h
  unfold get_request
  split
  · rename_i heq
    rw [heq] at h
    exact h
  · rename_i heq
    rw [heq] at h
    split
    · exact h
    · split
      · exact h
      · rw [getSlackMessagesLoop_gets]
        exact h

theorem slackBeaconLoop_gets (lib : GoLib) (profile : Obj) :
    ∀ (n : Nat) (w : World),
      countGets (slackBeaconLoop lib profile n w).world.trace ≤ countGets w.trace + n := by
  intro n
  induction n with
  | zero =>
    intro w
    exact Nat.le_refl _
  | succ n ih =>
    intro w
    rw [slackBeaconLoop]
    split
    · simp only [Outcome.world]
      omega
    · rename_i paw _
      have h := getSlackMessages_gets lib (lit "instructions") paw w
      split
      · rename_i heq
        rw [heq] at h
        simp only [Outcome.world] at h ⊢
        omega
      · rename_i contents w1 heq
        rw [heq] at h
        simp only [Outcome.world] at h
        split
        · simp only [Outcome.world]
          omega
        · have h2 := ih (sleep beaconWait w1)
          have h3 : countGets (sleep beaconWait w1).trace = countGets w1.trace := by
            simp [sleep, countGets_append, countGets]
          omega

theorem createSlack_gets (slackName description : GoString) (data : List Byte) (w : World) :
    countGets (createSlack slackName description data w).world.trace = countGets w.trace := by
  unfold createSlack
  simp only
  have h := exchange_post_gets postMessageUrl (postMessageBody slackName data) w
  unfold post_request
  split
  · rename_i heq
    rw [heq] at h
    exact h
  · rename_i heq
    rw [heq] at h
    split <;> exact h

theorem createHeartbeatSlack_gets (lib : GoLib) (slackType : GoString) (profile : Obj)
    (w : World) :
    countGets (createHeartbeatSlack lib slackType profile w).world.trace = countGets w.trace := by
  unfold createHeartbeatSlack
  cases lib.jsonMarshal profile with
  | none => rfl
  | some data =>
    simp only
    cases asString (index profile (lit "paw")) with
    | none => rfl
    | some paw =>
      simp only
      have h := createSlack_gets (getSlackDescriptor slackType paw)
        (getSlackDescriptor slackType paw) data w
      generalize createSlack (getSlackDescriptor slackType paw)
        (getSlackDescriptor slackType paw) data w = o at h
      cases o with
      | fault w1 => exact h
      | ret ok w1 =>
        simp only
        split <;> exact h

theorem slackBeacon_gets (lib : GoLib) (profile : Obj) (w : World) :
    countGets (slackBeacon lib profile w).world.trace ≤
      countGets w.trace + beaconResponseFailThreshold := by
  unfold slackBeacon
  have h := createHeartbeatSlack_gets lib (lit "beacon") profile w
  split
  · rename_i heq
    rw [heq] at h
    simp only [Outcome.world] at h ⊢
    omega
  · rename_i heartbeat w1 heq
    rw [heq] at h
    simp only [Outcome.world] at h
    split
    · have h2 := slackBeaconLoop_gets lib profile beaconResponseFailThreshold w1
      split
      · rename_i heq2
        rw [heq2] at h2
        simp only [Outcome.world] at h2 ⊢
        omega
      · rename_i heq2
        rw [heq2] at h2
        simp only [Outcome.world] at h2 ⊢
        omega
    · simp only [Outcome.world]
      omega

theorem getSlackMessagesLoop_unmatched (lib : GoLib) (slackType uniqueID : GoString) :
    ∀ (messages : List Value) (contents : List GoString) (w : World),
      messages.all (unmatched lib slackType uniqueID) = true →
      getSlackMessagesLoop lib slackType uniqueID messages contents w =
        Outcome.ret contents w := by
  intro messages
  induction messages with
  | nil =>
    intro contents w _
    rfl
  | cons m rest ih =>
    intro contents w h
    simp only [List.all_cons, Bool.and_eq_true] at h
    obtain ⟨hm, hrest⟩ := h
    unfold unmatched at hm
    rw [getSlackMessagesLoop]
    split
    · rename_i hmap
      rw [hmap] at hm
      cases hm
    · rename_i msg hmap
      rw [hmap] at hm
      simp only [Bool.not_eq_true'] at hm
      simp only [hm, Bool.false_eq_true, if_false]
      exact ih contents w hrest

theorem getSlackMessages_noInstruction (lib : GoLib) (paw : GoString) (r : Reply)
    (rest : List Reply) (clock : List Int) (trace : List Event)
    (h : noInstruction lib paw r = true) :
    getSlackMessages lib (lit "instructions") paw
        { replies := r :: rest, clock := clock, trace := trace } =
      Outcome.ret []
        { replies := rest, clock := clock.tail,
          trace := trace ++ [Event.get (historyUrl (clock.headD 0))] } := by
  cases r with
  | badRequest => cases h
  | failed => cases h
  | body b =>
    simp only [noInstruction, Bool.or_eq_true] at h
    cases clock with
    | nil =>
      simp only [getSlackMessages, timeNow, get_request, exchange]
      split
      · rfl
      · rename_i hok
        rcases h with h | h
        · exact absurd h hok
        · split at h
          · rename_i messages hm
            rw [hm]
            simp only
            rw [getSlackMessagesLoop_unmatched lib _ _ messages [] _ h]
            rfl
          · cases h
    | cons t clock =>
      simp only [getSlackMessages, timeNow, get_request, exchange]
      split
      · rfl
      · rename_i hok
        rcases h with h | h
        · exact absurd h hok
        · split at h
          · rename_i messages hm
            rw [hm]
            simp only
            rw [getSlackMessagesLoop_unmatched lib _ _ messages [] _ h]
            rfl
          · cases h

theorem ceil_div_nat (s c : Nat) (hc : 0 < c) : ⌈(s : ℚ) / (c : ℚ)⌉₊ = (s + c - 1) / c := by
  have hcq : (0 : ℚ) < (c : ℚ) := by exact_mod_cast hc
  apply Nat.le_antisymm
  · rw [Nat.ceil_le, div_le_iff₀ hcq]
    have h1 : s + c - 1 < ((s + c - 1) / c + 1) * c := by
      have := Nat.lt_succ_self ((s + c - 1) / c)
      exact (Nat.div_lt_iff_lt_mul hc).1 this
    have h2 : s ≤ (s + c - 1) / c * c := by
      rw [Nat.add_mul] at h1
      omega
    exact_mod_cast h2
  · have h1 : (s : ℚ) / c ≤ (⌈(s : ℚ) / (c : ℚ)⌉₊ : ℚ) := Nat.le_ceil _
    rw [div_le_iff₀ hcq] at h1
    have h2 : s ≤ ⌈(s : ℚ) / (c : ℚ)⌉₊ * c := by exact_mod_cast h1
    have h3 : (s + c - 1) / c < ⌈(s : ℚ) / (c : ℚ)⌉₊ + 1 := by
      rw [Nat.div_lt_iff_lt_mul hc, Nat.add_mul]
      omega
    omega

/-! ## Retrieval on a failed history call -/

theorem history_not_ok_inline (lib : GoLib) (slackType uniqueID : GoString) (b : Body)
    (rest : List Reply) (clock : List Int) (trace : List Event)
    (h : eqFalse (index b.parsed (lit "ok")) = true) :
    getSlackMessages lib slackType uniqueID
        { replies := Reply.body b :: rest, clock := clock, trace := trace } =
      Outcome.ret []
        { replies := rest, clock := clock.tail,
          trace := trace ++ [Event.get (historyUrl (clock.headD 0))] } := by
  cases clock <;> simp [getSlackMessages, timeNow, get_request, exchange, h]

theorem history_not_ok_attachment (lib : GoLib) (slackType uniqueID : GoString) (b : Body)
    (rest : List Reply) (clock : List Int) (trace : List Event)
    (h : eqFalse (index b.parsed (lit "ok")) = true) :
    getSlacks lib slackType uniqueID
        { replies := Reply.body b :: rest, clock := clock, trace := trace } =
      Outcome.ret []
        { replies := rest, clock := clock.tail,
          trace := trace ++ [Event.get (historyUrl (clock.headD 0))] } := by
  cases clock <;> simp [getSlacks, timeNow, get_request, exchange, h]

theorem history_no_bytes_inline (lib : GoLib) (slackType uniqueID : GoString)
    (rest : List Reply) (clock : List Int) (trace : List Event) :
    getSlackMessages lib slackType uniqueID
        { replies := Reply.failed :: rest, clock := clock, trace := trace } =
      Outcome.fault
        { replies := rest, clock := clock.tail,
          trace := trace ++ [Event.get (historyUrl (clock.headD 0))] } := by
  cases clock <;> rfl

theorem history_no_bytes_attachment (lib : GoLib) (slackType uniqueID : GoString)
    (rest : List Reply) (clock : List Int) (trace : List Event) :
    getSlacks lib slackType uniqueID
        { replies := Reply.failed :: rest, clock := clock, trace := trace } =
      Outcome.fault
        { replies := rest, clock := clock.tail,
          trace := trace ++ [Event.get (historyUrl (clock.headD 0))] } := by
  cases clock <;> rfl

/-! ## Heartbeat failures -/

theorem GetBeaconBytes_marshal_error (lib : GoLib) (profile : Obj) (w : World)
    (h : lib.jsonMarshal profile = none) :
    GetBeaconBytes lib profile w = Outcome.ret none (checkValidSleepInterval profile w) := by
  simp [GetBeaconBytes, slackBeacon, createHeartbeatSlack, h]

theorem GetBeaconBytes_send_refused (lib : GoLib) (profile : Obj) (data : List Byte)
    (paw : GoString) (r : Reply) (rest : List Reply) (clock : List Int) (trace : List Event)
    (hm : lib.jsonMarshal profile = some data)
    (hp : asString (index profile (lit "paw")) = some paw)
    (hr : reportsFailure r = true) :
    GetBeaconBytes lib profile { replies := r :: rest, clock := clock, trace := trace } =
      Outcome.ret none
        { replies := rest, clock := clock,
          trace := (checkValidSleepInterval profile
              { replies := r :: rest, clock := clock, trace := trace }).trace ++
            [Event.post postMessageUrl
              (postMessageBody (getSlackDescriptor (lit "beacon") paw) data)] } := by
  unfold GetBeaconBytes checkValidSleepInterval
  by_cases hs : eqInt (index profile (lit "sleep")) slackTimeout = true
  · simp only [hs, if_true, sleep]
    unfold slackBeacon createHeartbeatSlack
    rw [hm]
    simp only
    rw [hp]
    simp only
    rw [createSlack_reportsFailure _ _ _ _ _ _ _ hr]
    simp
  · simp only [hs, Bool.false_eq_true, if_false]
    unfold slackBeacon createHeartbeatSlack
    rw [hm]
    simp only
    rw [hp]
    simp only
    rw [createSlack_reportsFailure _ _ _ _ _ _ _ hr]
    simp

/-! ## Payload download on an empty retrieval -/

theorem GetPayloadBytes_empty (lib : GoLib) (profile : Obj) (paw payloadName : GoString)
    (w w1 : World)
    (hp : index profile (lit "paw") = Value.str paw)
    (hk : hasKey profile (lit "paw") = true)
    (h : getSlacks lib (lit "payloads") (paw ++ lit "-" ++ payloadName) w = Outcome.ret [] w1) :
    GetPayloadBytes lib profile payloadName w = Outcome.fault w1 := by
  unfold GetPayloadBytes
  rw [hk, hp]
  simp only [Bool.not_true, Bool.false_eq_true, if_false, asString]
  rw [h]
  rfl

/-! ## The upload descriptor -/

theorem createSlack_ignores_description (slackName d1 d2 : GoString) (data : List Byte)
    (w : World) : createSlack slackName d1 data w = createSlack slackName d2 data w := rfl

theorem uploadLoop_ignores_descriptor (slackName id1 id2 f1 f2 : GoString) (data : List Byte)
    (t1 t2 : Nat) :
    ∀ (n i start : Nat) (w : World),
      uploadLoop slackName id1 f1 data t1 n i start w =
        uploadLoop slackName id2 f2 data t2 n i start w := by
  intro n
  induction n with
  | zero =>
    intro i start w
    rfl
  | succ n ih =>
    intro i start w
    rw [uploadLoop, uploadLoop]
    simp only
    split
    · rfl
    · simp only [uploadFileChunk]
      rw [createSlack_ignores_description _ _
        (getSlackDescriptionForUpload id2 f2 (i + 1) t2)]
      split
      · rfl
      · rfl
      · exact ih _ _ _

/-- The traffic of an upload depends neither on the file name nor on the upload
identifier. -/
theorem UploadFileBytes_ignores_name_and_id (profile : Obj) (name1 name2 : GoString)
    (data : List Byte) (rand1 rand2 : Nat) (w : World) :
    UploadFileBytes profile name1 data rand1 w = UploadFileBytes profile name2 data rand2 w := by
  unfold UploadFileBytes
  split
  · rfl
  · exact uploadLoop_ignores_descriptor _ _ _ _ _ _ _ _ _ _ _ _

/-! ## Deletion policy -/

theorem deletesOf_append (a b : List Event) : deletesOf (a ++ b) = deletesOf a ++ deletesOf b := by
  induction a with
  | nil => rfl
  | cons e a ih =>
    cases e with
    | post address body =>
      simp only [List.cons_append, deletesOf]
      split <;> simp [ih]
    | get address => simpa [deletesOf] using ih
    | sleep n => simpa [deletesOf] using ih

theorem exchange_ret_trace (e : Event) (w w1 : World) (b : Body)
    (h : exchange e w = Outcome.ret b w1) : w1.trace = w.trace ++ [e] := by
  unfold exchange at h
  split at h
  · cases h
    rfl
  · cases h
  · cases h
    rfl
  · cases h
    rfl

theorem exchange_fault_trace (e : Event) (w w1 : World)
    (h : exchange e w = Outcome.fault w1) : w1.trace = w.trace := by
  unfold exchange at h
  split at h
  · cases h
  · cases h
    rfl
  · cases h
  · cases h

theorem deleteUnlessPayloads_payloads (slackType : GoString) (msg : Obj) (w : World)
    (h : Contains slackType (lit "payloads") = true) :
    deleteUnlessPayloads slackType msg w = Outcome.ret () w := by
  simp [deleteUnlessPayloads, h]

theorem deleteUnlessPayloads_ret (slackType : GoString) (msg : Obj) (w w1 : World) (u : Unit)
    (h : Contains slackType (lit "payloads") = false)
    (hr : deleteUnlessPayloads slackType msg w = Outcome.ret u w1) :
    deletesOf w1.trace = deletesOf w.trace ++ [deleteBody msg] := by
  simp only [deleteUnlessPayloads, h, Bool.not_false, if_true, post_request] at hr
  split at hr
  · cases hr
  · rename_i b w2 heq
    cases hr
    rw [exchange_ret_trace _ _ _ _ heq, deletesOf_append]
    simp [deletesOf]

theorem deleteUnlessPayloads_fault (slackType : GoString) (msg : Obj) (w w1 : World)
    (hr : deleteUnlessPayloads slackType msg w = Outcome.fault w1) :
    deletesOf w1.trace = deletesOf w.trace := by
  unfold deleteUnlessPayloads at hr
  split at hr
  · unfold post_request at hr
    split at hr
    · rename_i w2 heq
      cases hr
      rw [exchange_fault_trace _ _ _ heq]
    · cases hr
  · cases hr

theorem get_request_deletes (address : GoString) (w : World) :
    deletesOf (get_request address w).world.trace = deletesOf w.trace := by
  unfold get_request exchange
  split <;> simp [Outcome.world, deletesOf_append, deletesOf]

/-- Inline mode, type without `payloads`: the deletes of a run are those of the
matched messages among the first `k` of the history, one each and in order; a
run that returns has visited the whole history. -/
theorem getSlackMessagesLoop_deletes (lib : GoLib) (slackType uniqueID : GoString)
    (hty : Contains slackType (lit "payloads") = false) :
    ∀ (messages : List Value) (contents : List GoString) (w : World),
      ∃ k, k ≤ messages.length ∧
        deletesOf (getSlackMessagesLoop lib slackType uniqueID messages contents w).world.trace =
          deletesOf w.trace ++
            (matchedOf lib slackType uniqueID (messages.take k)).map deleteBody ∧
        (∀ c w1, getSlackMessagesLoop lib slackType uniqueID messages contents w =
            Outcome.ret c w1 → k = messages.length) := by
  intro messages
  induction messages with
  | nil =>
    intro contents w
    exact ⟨0, Nat.le_refl _, by simp [getSlackMessagesLoop, Outcome.world, matchedOf],
      fun _ _ _ => rfl⟩
  | cons m rest ih =>
    intro contents w
    rw [getSlackMessagesLoop]
    cases hm : asMap m with
    | none =>
      exact ⟨0, Nat.zero_le _, by simp [Outcome.world, matchedOf], fun _ _ h => by cases h⟩
    | some msg =>
      simp only
      by_cases hmatch : isMatch slackType uniqueID (sprintS lib (index msg (lit "text"))) = true
      · rw [if_pos hmatch]
        cases hsplit : (SplitN2 (sprintS lib (index msg (lit "text"))) (lit " | ")).get? 1 with
        | none =>
          exact ⟨0, Nat.zero_le _, by simp [Outcome.world, matchedOf], fun _ _ h => by cases h⟩
        | some payload =>
          simp only
          cases hdel : deleteUnlessPayloads slackType msg w with
          | fault w1 =>
            refine ⟨0, Nat.zero_le _, ?_, fun _ _ h => by cases h⟩
            simp [Outcome.world, matchedOf, deleteUnlessPayloads_fault _ _ _ _ hdel]
          | ret u w1 =>
            simp only
            obtain ⟨k, hk, hd, hret⟩ := ih (contents ++ [payload]) w1
            refine ⟨k + 1, by simp only [List.length_cons]; omega, ?_, ?_⟩
            · rw [hd, deleteUnlessPayloads_ret _ _ _ _ _ hty hdel]
              simp [matchedOf, hm, hmatch]
            · intro c w2 h
              have := hret c w2 h
              simp only [List.length_cons]
              omega
      · rw [if_neg hmatch]
        obtain ⟨k, hk, hd, hret⟩ := ih contents w
        refine ⟨k + 1, by simp only [List.length_cons]; omega, ?_, ?_⟩
        · rw [hd]
          simp [matchedOf, hm, hmatch]
        · intro c w2 h
          have := hret c w2 h
          simp only [List.length_cons]
          omega

/-- Attachment mode, type without `payloads`: as for the inline mode. -/
theorem getSlacksLoop_deletes (lib : GoLib) (slackType uniqueID : GoString)
    (hty : Contains slackType (lit "payloads") = false) :
    ∀ (messages : List Value) (contents : List GoString) (w : World),
      ∃ k, k ≤ messages.length ∧
        deletesOf (getSlacksLoop lib slackType uniqueID messages contents w).world.trace =
          deletesOf w.trace ++
            (matchedOf lib slackType uniqueID (messages.take k)).map deleteBody ∧
        (∀ c w1, getSlacksLoop lib slackType uniqueID messages contents w =
            Outcome.ret c w1 → k = messages.length) := by
  intro messages
  induction messages with
  | nil =>
    intro contents w
    exact ⟨0, Nat.le_refl _, by simp [getSlacksLoop, Outcome.world, matchedOf],
      fun _ _ _ => rfl⟩
  | cons m rest ih =>
    intro contents w
    rw [getSlacksLoop]
    cases hm : asMap m with
    | none =>
      exact ⟨0, Nat.zero_le _, by simp [Outcome.world, matchedOf], fun _ _ h => by cases h⟩
    | some msg =>
      simp only
      by_cases hmatch : isMatch slackType uniqueID (sprintS lib (index msg (lit "text"))) = true
      · rw [if_pos hmatch]
        cases hurl : urlPrivateDownload msg with
        | none =>
          exact ⟨0, Nat.zero_le _, by simp [Outcome.world, matchedOf], fun _ _ h => by cases h⟩
        | some url_file =>
          simp only
          have hget := get_request_deletes url_file w
          cases hreq : get_request url_file w with
          | fault w1 =>
            rw [hreq] at hget
            refine ⟨0, Nat.zero_le _, ?_, fun _ _ h => by cases h⟩
            simpa [Outcome.world, matchedOf] using hget
          | ret file w1 =>
            rw [hreq] at hget
            simp only [Outcome.world] at hget
            simp only
            cases hdel : deleteUnlessPayloads slackType msg w1 with
            | fault w2 =>
              refine ⟨0, Nat.zero_le _, ?_, fun _ _ h => by cases h⟩
              simp [Outcome.world, matchedOf, deleteUnlessPayloads_fault _ _ _ _ hdel, hget]
            | ret u w2 =>
              simp only
              obtain ⟨k, hk, hd, hret⟩ := ih (contents ++ [file.raw]) w2
              refine ⟨k + 1, by simp only [List.length_cons]; omega, ?_, ?_⟩
              · rw [hd, deleteUnlessPayloads_ret _ _ _ _ _ hty hdel, hget]
                simp [matchedOf, hm, hmatch]
              · intro c w3 h
                have := hret c w3 h
                simp only [List.length_cons]
                omega
      · rw [if_neg hmatch]
        obtain ⟨k, hk, hd, hret⟩ := ih contents w
        refine ⟨k + 1, by simp only [List.length_cons]; omega, ?_, ?_⟩
        · rw [hd]
          simp [matchedOf, hm, hmatch]
        · intro c w2 h
          have := hret c w2 h
          simp only [List.length_cons]
          omega

/-- A type that contains `payloads`: the inline loop issues no delete at all. -/
theorem getSlackMessagesLoop_payloads (lib : GoLib) (slackType uniqueID : GoString)
    (hty : Contains slackType (lit "payloads") = true) :
    ∀ (messages : List Value) (contents : List GoString) (w : World),
      deletesOf (getSlackMessagesLoop lib slackType uniqueID messages contents w).world.trace =
        deletesOf w.trace := by
  intro messages
  induction messages with
  | nil =>
    intro contents w
    rfl
  | cons m rest ih =>
    intro contents w
    rw [getSlackMessagesLoop]
    split
    · rfl
    · simp only
      split
      · split
        · rfl
        · rw [deleteUnlessPayloads_payloads _ _ _ hty]
          exact ih _ _
      · exact ih _ _

/-- A type that contains `payloads`: the attachment loop issues no delete at all. -/
theorem getSlacksLoop_payloads (lib : GoLib) (slackType uniqueID : GoString)
    (hty : Contains slackType (lit "payloads") = true) :
    ∀ (messages : List Value) (contents : List GoString) (w : World),
      deletesOf (getSlacksLoop lib slackType uniqueID messages contents w).world.trace =
        deletesOf w.trace := by
  intro messages
  induction messages with
  | nil =>
    intro contents w
    rfl
  | cons m rest ih =>
    intro contents w
    rw [getSlacksLoop]
    split
    · rfl
    · simp only
      split
      · split
        · rfl
        · rename_i url_file _
          have hget := get_request_deletes url_file w
          split
          · rename_i heq
            rw [heq] at hget
            exact hget
          · rename_i file w1 heq
            rw [heq] at hget
            rw [deleteUnlessPayloads_payloads _ _ _ hty]
            simp only
            rw [ih]
            exact hget
      · exact ih _ _

/-! ## The retry loop and the abort on answered calls -/

/-- The retry loop on polls that return: after an accepted heartbeat a run of
`slackBeacon` issues at most 3 history calls, whatever the replies; and when each
of three polls returns without a match (`ok: false`, or only unmatched messages),
the run is the heartbeat post and 3 polls, each followed by a sleep of 10
seconds, and returns no data. -/
theorem slackBeacon_three_quiet_polls (lib : GoLib) (profile : Obj) (data : List Byte)
    (paw : GoString) (r0 : Reply) (rest : List Reply) (clock : List Int) (trace : List Event)
    (hm : lib.jsonMarshal profile = some data)
    (hp : asString (index profile (lit "paw")) = some paw)
    (hok : reportsOk r0 = true) :
    countGets (slackBeacon lib profile
        { replies := r0 :: rest, clock := clock, trace := trace }).world.trace ≤
      countGets trace + 3 ∧
    (∀ (r1 r2 r3 : Reply) (rest' : List Reply), rest = r1 :: r2 :: r3 :: rest' →
      noInstruction lib paw r1 = true → noInstruction lib paw r2 = true →
      noInstruction lib paw r3 = true →
      slackBeacon lib profile { replies := r0 :: rest, clock := clock, trace := trace } =
        Outcome.ret (none, true)
          { replies := rest', clock := clock.tail.tail.tail,
            trace := trace ++
              [Event.post postMessageUrl
                 (postMessageBody (getSlackDescriptor (lit "beacon") paw) data),
               Event.get (historyUrl (clock.headD 0)), Event.sleep 10,
               Event.get (historyUrl (clock.tail.headD 0)), Event.sleep 10,
               Event.get (historyUrl (clock.tail.tail.headD 0)), Event.sleep 10] }) := by
  constructor
  · exact slackBeacon_gets lib profile _
  · intro r1 r2 r3 rest' hrest h1 h2 h3
    subst hrest
    unfold slackBeacon createHeartbeatSlack
    rw [hm]
    simp only
    rw [hp]
    simp only
    rw [createSlack_reportsOk _ _ _ _ _ _ _ hok]
    simp only [bne_self_eq_false, Bool.false_eq_true, if_false, if_true]
    have e3 : beaconResponseFailThreshold = 3 := rfl
    rw [e3, slackBeaconLoop, hp]
    simp only
    rw [getSlackMessages_noInstruction lib paw r1 _ _ _ h1]
    simp only [sleep]
    rw [slackBeaconLoop, hp]
    simp only
    rw [getSlackMessages_noInstruction lib paw r2 _ _ _ h2]
    simp only [sleep]
    rw [slackBeaconLoop, hp]
    simp only
    rw [getSlackMessages_noInstruction lib paw r3 _ _ _ h3]
    simp only [sleep, slackBeaconLoop]
    simp [beaconWait]

/-- The retry loop at a concrete run: heartbeat accepted, then an empty history, a history call
answered `ok: false`, and a history with a message for another agent. -/
theorem slackBeacon_three_quiet_polls_run :
    slackBeacon sampleLib sampleProfile
        { replies := [okReply, history [], notOkReply,
            history [textMessage (lit "instructions-zzz | QQ==") (lit "1.5")]],
          clock := [100, 111, 122], trace := [] } =
      Outcome.ret (none, true)
        { replies := [], clock := [],
          trace := [] ++
            [Event.post postMessageUrl
               (postMessageBody (getSlackDescriptor (lit "beacon") (lit "abc")) sampleProfileJson),
             Event.get (historyUrl 100), Event.sleep 10,
             Event.get (historyUrl 111), Event.sleep 10,
             Event.get (historyUrl 122), Event.sleep 10] } :=
  (slackBeacon_three_quiet_polls sampleLib sampleProfile sampleProfileJson (lit "abc") okReply
    [history [], notOkReply, history [textMessage (lit "instructions-zzz | QQ==") (lit "1.5")]]
    [100, 111, 122] [] rfl rfl rfl).2 _ _ _ _ rfl (by decide) (by decide) (by decide)

/-- The abort on a refused send: for every payload (of a length below `2 ^ 53`)
and every chunk index `k` with `1 ≤ k ≤ numChunks`, when the sends of chunks
`1..k-1` are answered `ok: true` and the send of chunk `k` is answered
`ok: false`, `UploadFileBytes` posts exactly the chunks `1..k`, in order, posts
nothing after chunk `k`, and returns an error. -/
theorem upload_stops_at_refused_send (profile : Obj) (paw uploadName : GoString)
    (data : List Byte) (randInt k : Nat) (pre : List Reply) (rk : Reply) (rest : List Reply)
    (clock : List Int) (trace : List Event)
    (hpaw : asString (index profile (lit "paw")) = some paw)
    (hsize : data.length < 2 ^ 53)
    (hk : k ≤ numChunksOf data.length)
    (hlen : pre.length + 1 = k)
    (hpre : ∀ r ∈ pre, reportsOk r = true)
    (hfail : reportsFailure rk = true) :
    UploadFileBytes profile uploadName data randInt
        { replies := pre ++ rk :: rest, clock := clock, trace := trace } =
      Outcome.ret (some uploadError)
        { replies := rest, clock := clock,
          trace := trace ++ (List.range k).map (chunkEvent paw data) } := by
  have hnum := numChunksOf_eq data.length hsize
  have hC : maxDataChunkSize = 750000 := rfl
  have hkC : k * maxDataChunkSize ≤ data.length + maxDataChunkSize - 1 := by
    rw [hnum] at hk
    exact (Nat.le_div_iff_mul_le (by decide)).1 hk
  have hbound : (0 + pre.length) * maxDataChunkSize ≤ data.length := by
    rw [← hlen, Nat.add_mul, hC] at hkC
    rw [Nat.zero_add, hC]
    omega
  unfold UploadFileBytes
  rw [hpaw]
  simp only
  rw [uploadLoop_abort _ _ _ data _ rk rest hfail pre (numChunksOf data.length) 0 0 clock trace
    hpre (by omega) (by simp) hbound]
  rw [hlen, List.range_eq_range']
  rfl

/-- The abort at a concrete run: a payload of 3 chunks whose chunk 2 is refused; chunks 1
and 2 are posted, chunk 3 is not, and the reply meant for it stays unused. -/
theorem upload_stops_at_refused_send_run :
    UploadFileBytes sampleProfile (lit "f") (List.replicate 1500001 0) 7
        { replies := [okReply] ++ notOkReply :: [okReply], clock := [], trace := [] } =
      Outcome.ret (some uploadError)
        { replies := [okReply], clock := [],
          trace := [] ++ (List.range 2).map (chunkEvent (lit "abc") (List.replicate 1500001 0)) } :=
  upload_stops_at_refused_send sampleProfile (lit "abc") (lit "f") (List.replicate 1500001 0) 7 2
    [okReply] notOkReply [okReply] [] [] rfl
    (by rw [List.length_replicate]; decide)
    (by rw [List.length_replicate]; decide)
    rfl
    (by decide)
    rfl

set_option maxRecDepth 100000 in
/-- Why the chunk count is stated for slice lengths: at the number
`750000 * 2 ^ 40 + 1`, far beyond any length a slice can have, `float64(s)`
rounds to `750000 * 2 ^ 40` and the expression gives `2 ^ 40`, one below the
exact ceiling. -/
theorem numChunksOf_beyond_slice_lengths :
    numChunksOf 824633720832000001 ≠ ⌈((824633720832000001 : Nat) : ℚ) / (750000 : ℚ)⌉₊ ∧
      numChunksOf 824633720832000001 = 1099511627776 := by
  have h1 : numChunksOf 824633720832000001 = 1099511627776 := by decide
  have h2 : ⌈((824633720832000001 : Nat) : ℚ) / (750000 : ℚ)⌉₊ = 1099511627777 := by
    have := ceil_div_nat 824633720832000001 750000 (by decide)
    norm_num at this ⊢
    exact this
  refine ⟨?_, h1⟩
  rw [h1, h2]
  decide

/-! ## Sends and polls that get no answer -/

theorem createSlack_givesNoVerdict (slackName description : GoString) (data : List Byte)
    (r : Reply) (rest : List Reply) (clock : List Int) (trace : List Event)
    (h : givesNoVerdict r = true) :
    createSlack slackName description data { replies := r :: rest, clock := clock, trace := trace } =
      Outcome.fault
        { replies := rest, clock := clock,
          trace := trace ++ [Event.post postMessageUrl (postMessageBody slackName data)] } := by
  cases r with
  | badRequest => cases h
  | failed => rfl
  | body b =>
    simp only [givesNoVerdict, Option.isNone_iff_eq_none] at h
    simp [createSlack, post_request, exchange, h]

theorem uploadLoop_fault (slackName uploadId encodedFilename : GoString) (data : List Byte)
    (numChunks : Nat) (rk : Reply) (rest : List Reply) (hfail : givesNoVerdict rk = true) :
    ∀ (pre : List Reply) (n i start : Nat) (clock : List Int) (trace : List Event),
      (∀ r ∈ pre, reportsOk r = true) → pre.length < n → start = i * maxDataChunkSize →
      (i + pre.length) * maxDataChunkSize ≤ data.length →
      uploadLoop slackName uploadId encodedFilename data numChunks n i start
          { replies := pre ++ rk :: rest, clock := clock, trace := trace } =
        Outcome.fault
          { replies := rest, clock := clock,
            trace := trace ++ (List.range' i (pre.length + 1)).map (fun j =>
              Event.post postMessageUrl (postMessageBody slackName
                ((data.drop (j * maxDataChunkSize)).take maxDataChunkSize))) } := by
  intro pre
  induction pre with
  | nil =>
    intro n i start clock trace _ hn hstart hsize
    obtain ⟨n, rfl⟩ : ∃ n', n = n' + 1 := ⟨n - 1, by simp at hn; omega⟩
    have hs : start ≤ data.length := by
      simp only [List.length_nil, Nat.add_zero] at hsize
      omega
    rw [uploadLoop]
    simp only
    rw [sliceBytes_chunk data start hs]
    simp only [uploadFileChunk, List.nil_append]
    rw [createSlack_givesNoVerdict _ _ _ _ _ _ _ hfail]
    simp [hstart]
  | cons r pre ih =>
    intro n i start clock trace hpre hn hstart hsize
    obtain ⟨n, rfl⟩ : ∃ n', n = n' + 1 := ⟨n - 1, by simp at hn; omega⟩
    have hle : i * maxDataChunkSize ≤ (i + (r :: pre).length) * maxDataChunkSize :=
      Nat.mul_le_mul_right _ (Nat.le_add_right _ _)
    have hs : start ≤ data.length := by omega
    rw [uploadLoop]
    simp only
    rw [sliceBytes_chunk data start hs]
    simp only [uploadFileChunk, List.cons_append]
    rw [createSlack_reportsOk _ _ _ _ _ _ _ (hpre r (List.mem_cons_self _ _))]
    simp only [bne_self_eq_false, Bool.false_eq_true, if_false]
    rw [ih n (i + 1) (start + maxDataChunkSize) clock _
      (fun r' hr' => hpre r' (List.mem_cons_of_mem _ hr'))
      (by simp only [List.length_cons] at hn; omega)
      (by rw [hstart, Nat.add_mul]; simp)
      (by
        simp only [List.length_cons] at hsize
        rw [show i + 1 + pre.length = i + (pre.length + 1) by omega]
        exact hsize)]
    simp only [List.length_cons, List.append_assoc, List.singleton_append]
    rw [List.range'_succ i (pre.length + 1)]
    simp [hstart]

/-- A send that gets no answer: for every payload (of a length below `2 ^ 53`) and
every chunk index `k` with `1 ≤ k ≤ numChunks`, when the sends of chunks `1..k-1`
are answered `ok: true` and the send of chunk `k` brings back no boolean `ok`,
`UploadFileBytes` posts exactly the chunks `1..k` and then faults inside
`createSlack`; it returns no error. -/
theorem upload_faults_at_unanswered_send (profile : Obj) (paw uploadName : GoString)
    (data : List Byte) (randInt k : Nat) (pre : List Reply) (rk : Reply) (rest : List Reply)
    (clock : List Int) (trace : List Event)
    (hpaw : asString (index profile (lit "paw")) = some paw)
    (hsize : data.length < 2 ^ 53)
    (hk : k ≤ numChunksOf data.length)
    (hlen : pre.length + 1 = k)
    (hpre : ∀ r ∈ pre, reportsOk r = true)
    (hfail : givesNoVerdict rk = true) :
    UploadFileBytes profile uploadName data randInt
        { replies := pre ++ rk :: rest, clock := clock, trace := trace } =
      Outcome.fault
        { replies := rest, clock := clock,
          trace := trace ++ (List.range k).map (chunkEvent paw data) } := by
  have hnum := numChunksOf_eq data.length hsize
  have hC : maxDataChunkSize = 750000 := rfl
  have hkC : k * maxDataChunkSize ≤ data.length + maxDataChunkSize - 1 := by
    rw [hnum] at hk
    exact (Nat.le_div_iff_mul_le (by decide)).1 hk
  have hbound : (0 + pre.length) * maxDataChunkSize ≤ data.length := by
    rw [← hlen, Nat.add_mul, hC] at hkC
    rw [Nat.zero_add, hC]
    omega
  unfold UploadFileBytes
  rw [hpaw]
  simp only
  rw [uploadLoop_fault _ _ _ data _ rk rest hfail pre (numChunksOf data.length) 0 0 clock trace
    hpre (by omega) (by simp) hbound]
  rw [hlen, List.range_eq_range']
  rfl

/-- A poll that gets no answer: after an accepted heartbeat, a first history call
that returns no bytes makes `slackBeacon` fault in `getSlackMessages`, after one
attempt and without any wait. -/
theorem slackBeacon_faults_at_unanswered_poll (lib : GoLib) (profile : Obj) (data : List Byte)
    (paw : GoString) (r0 : Reply) (rest : List Reply) (clock : List Int) (trace : List Event)
    (hm : lib.jsonMarshal profile = some data)
    (hp : asString (index profile (lit "paw")) = some paw)
    (hok : reportsOk r0 = true) :
    slackBeacon lib profile
        { replies := r0 :: Reply.failed :: rest, clock := clock, trace := trace } =
      Outcome.fault
        { replies := rest, clock := clock.tail,
          trace := trace ++
            [Event.post postMessageUrl
               (postMessageBody (getSlackDescriptor (lit "beacon") paw) data),
             Event.get (historyUrl (clock.headD 0))] } := by
  unfold slackBeacon createHeartbeatSlack
  rw [hm]
  simp only
  rw [hp]
  simp only
  rw [createSlack_reportsOk _ _ _ _ _ _ _ hok]
  simp only [bne_self_eq_false, Bool.false_eq_true, if_false, if_true]
  have e3 : beaconResponseFailThreshold = 3 := rfl
  rw [e3, slackBeaconLoop, hp]
  simp only
  rw [history_no_bytes_inline]
  simp

/-! ## The claims -/

/-- C1 (amended): for every type, id and byte payload `p`, taking the message text
that `createSlack` builds for the name `{type}-{id}`, splitting it on the first
` | ` as `getSlackMessages` does and base64-decoding the remainder as
`slackBeacon` does yields exactly `p` if and only if the first ` | ` of
`{type}-{id} | ` is the separator itself, that is, no ` | ` begins inside the
name. -/
theorem frame_roundtrip (slackType uniqueID : GoString) (p : List Byte) :
    decodeFrame (slackText (getSlackDescriptor slackType uniqueID) p) = some p ↔
      Index (getSlackDescriptor slackType uniqueID ++ lit " | ") (lit " | ") =
        (getSlackDescriptor slackType uniqueID).length := by
  generalize getSlackDescriptor slackType uniqueID = slackName
  constructor
  · intro hdec
    obtain ⟨m, hm, hle⟩ := indexFrom_self_append (lit " | ") slackName
    unfold Index
    rw [hm]
    by_cases hlt : m = slackName.length
    · simp [hlt]
    · exfalso
      have hm2 := indexFrom_append (lit " | ") (EncodeToString p) _ _ hm
      have hspace : (32 : Byte) ∈
          List.drop (m + (lit " | ").length) (slackName ++ lit " | " ++ EncodeToString p) := by
        have e : slackName ++ lit " | " ++ EncodeToString p =
            (slackName ++ [32, 124]) ++ (32 :: EncodeToString p) := by
          simp [lit, Fin.ofNat]
        rw [e, List.drop_append_of_le_length]
        · exact List.mem_append_right _ (List.mem_cons_self _ _)
        · simp only [List.length_append, List.length_cons, List.length_nil]
          have : (lit " | ").length = 3 := by decide
          omega
      unfold decodeFrame slackText SplitN2 at hdec
      rw [hm2] at hdec
      simp only [List.get?_eq_getElem?, List.getElem?_cons_succ, List.getElem?_cons_zero,
        Option.some_bind] at hdec
      unfold DecodeString at hdec
      rw [decodeFrom_space _ _ hspace] at hdec
      cases hdec
  · intro h
    unfold decodeFrame slackText
    rw [SplitN2_frame slackName _ h]
    simp only [List.get?_eq_getElem?, List.getElem?_cons_succ, List.getElem?_cons_zero,
      Option.some_bind]
    exact decode_encode p

/-- C1 as stated fails: for the id `a | b` the split lands inside the name, the
remainder `b | QQ==` is no base64 text, and the payload `A` is not recovered. -/
theorem frame_roundtrip_fails :
    decodeFrame (slackText (getSlackDescriptor (lit "instructions") (lit "a | b")) (lit "A")) =
      none := by
  decide

/-- C2 (amended): for every message text and every filter `(type, id)`, the test
that both retrieval loops apply matches the message if and only if `{type}-{id}`
is a leading segment of the text; nothing is asked of what follows it. -/
theorem filter_matches_iff_leading (slackType uniqueID text : GoString) :
    isMatch slackType uniqueID text = true ↔ getSlackDescriptor slackType uniqueID <+: text := by
  unfold isMatch getSlackDescriptor
  rw [decide_eq_true_iff]
  exact Index_eq_zero_iff _ _

/-- C2 as stated fails: the message `beacon-123 | AA` is matched by the filter
`(beacon, 12)`; the inline mode returns its payload and deletes it, and so does
the attachment mode. -/
theorem longer_id_is_matched :
    isMatch (lit "beacon") (lit "12") (lit "beacon-123 | AA") = true ∧
    getSlackMessages sampleLib (lit "beacon") (lit "12")
        { replies := [history [textMessage (lit "beacon-123 | AA") (lit "1.5")], okReply],
          clock := [1000], trace := [] } =
      Outcome.ret [lit "AA"]
        { replies := [], clock := [],
          trace := [Event.get (historyUrl 1000),
            Event.post deleteUrl
              [(lit "channel", Value.str channel_id), (lit "ts", Value.str (lit "1.5"))]] } ∧
    getSlacks sampleLib (lit "beacon") (lit "12")
        { replies :=
            [history [Value.map [(lit "text", Value.str (lit "beacon-123 | AA")),
               (lit "ts", Value.str (lit "1.5")),
               (lit "files", Value.slice
                 [Value.map [(lit "url_private_download", Value.str (lit "https://f/1"))]])]],
             Reply.body { raw := lit "QUE=", parsed := [] }, okReply],
          clock := [1000], trace := [] } =
      Outcome.ret [lit "QUE="]
        { replies := [], clock := [],
          trace := [Event.get (historyUrl 1000), Event.get (lit "https://f/1"),
            Event.post deleteUrl
              [(lit "channel", Value.str channel_id), (lit "ts", Value.str (lit "1.5"))]] } :=
  ⟨by decide, rfl, rfl⟩

/-- C3, the code at the failing inputs: a matched message without ` | ` makes
`getSlackMessages` fault at `SplitN(...)[1]`, and a matched message without
attachment makes `getSlacks` fault at the assertion on `files`; in both runs the type does not
contain `payloads` and no `chat.delete` is issued for the matched message. -/
theorem matched_message_faults_before_delete :
    getSlackMessages sampleLib (lit "instructions") (lit "abc")
        { replies := [history [textMessage (lit "instructions-abc") (lit "1.5")], okReply],
          clock := [1000], trace := [] } =
      Outcome.fault
        { replies := [okReply], clock := [], trace := [Event.get (historyUrl 1000)] } ∧
    getSlacks sampleLib (lit "results") (lit "abc")
        { replies := [history [textMessage (lit "results-abc | QQ==") (lit "1.5")], okReply],
          clock := [1000], trace := [] } =
      Outcome.fault
        { replies := [okReply], clock := [], trace := [Event.get (historyUrl 1000)] } :=
  ⟨rfl, rfl⟩

/-- C4, the code at the failing input: when the history call returns no bytes (or
a body without `ok` and `messages`), both retrieval modes fault at
`result["messages"].([]interface{})` instead of returning an empty list. -/
theorem history_without_ok_faults :
    getSlackMessages sampleLib (lit "instructions") (lit "abc")
        { replies := [Reply.failed], clock := [1000], trace := [] } =
      Outcome.fault { replies := [], clock := [], trace := [Event.get (historyUrl 1000)] } ∧
    getSlacks sampleLib (lit "payloads") (lit "abc-x")
        { replies := [Reply.failed], clock := [1000], trace := [] } =
      Outcome.fault { replies := [], clock := [], trace := [Event.get (historyUrl 1000)] } ∧
    getSlackMessages sampleLib (lit "instructions") (lit "abc")
        { replies := [Reply.body { raw := lit "\x7b\x7d", parsed := [] }], clock := [1000],
          trace := [] } =
      Outcome.fault { replies := [], clock := [], trace := [Event.get (historyUrl 1000)] } :=
  ⟨rfl, rfl, rfl⟩

/-- C5, the code at the failing input: when the heartbeat post returns no bytes,
`createSlack` faults at `result["ok"].(bool)` and `GetBeaconBytes` does not
return. -/
theorem heartbeat_without_response_faults :
    GetBeaconBytes sampleLib sampleProfile
        { replies := [Reply.failed], clock := [1000], trace := [] } =
      Outcome.fault
        { replies := [], clock := [1000],
          trace := [Event.post postMessageUrl
            (postMessageBody (getSlackDescriptor (lit "beacon") (lit "abc")) sampleProfileJson)] } :=
  rfl

/-- C6, the code at the failing input: the heartbeat is accepted and the first
history call returns no bytes, so the poll finds no instruction message; yet
`slackBeacon` makes one attempt only, does not wait, and does not return: it
faults at `result["messages"].([]interface{})` in `getSlackMessages`, with the
replies of the two further attempts left unused. -/
theorem slackBeacon_faults_on_failed_poll :
    slackBeacon sampleLib sampleProfile
        { replies := [okReply, Reply.failed, history [], history []],
          clock := [100, 111, 122], trace := [] } =
      Outcome.fault
        { replies := [history [], history []], clock := [111, 122],
          trace :=
            [Event.post postMessageUrl
               (postMessageBody (getSlackDescriptor (lit "beacon") (lit "abc")) sampleProfileJson),
             Event.get (historyUrl 100)] } :=
  rfl

/-- C7, the code at the failing input: a payload of 3 chunks whose chunk 1 is
accepted and whose chunk 2 gets no bytes back from the transport.
`UploadFileBytes` posts chunk 1 and chunk 2 and never attempts chunk 3, but it
returns no error: it faults at `result["ok"].(bool)` in `createSlack`. -/
theorem upload_faults_on_failed_send :
    UploadFileBytes sampleProfile (lit "f") (List.replicate 1500001 0) 7
        { replies := [okReply] ++ Reply.failed :: [okReply], clock := [], trace := [] } =
      Outcome.fault
        { replies := [okReply], clock := [],
          trace := [] ++ (List.range 2).map (chunkEvent (lit "abc") (List.replicate 1500001 0)) } :=
  upload_faults_at_unanswered_send sampleProfile (lit "abc") (lit "f")
    (List.replicate 1500001 0) 7 2 [okReply] Reply.failed [okReply] [] [] rfl
    (by rw [List.length_replicate]; decide)
    (by rw [List.length_replicate]; decide)
    rfl
    (by decide)
    rfl

/-- C8: for every payload size `s`, the length of a byte slice and as such below
`2 ^ 53`, the chunk count `int(math.Ceil(float64(s) / float64(750000)))` that
`UploadFileBytes` computes equals the exact ceiling of `s / 750000`, and it is 0
only when `s` is 0. -/
theorem numChunks_exact (s : Nat) (h : s < 2 ^ 53) :
    numChunksOf s = ⌈(s : ℚ) / (750000 : ℚ)⌉₊ ∧ (numChunksOf s = 0 ↔ s = 0) := by
  have hnum := numChunksOf_eq s h
  have hC : maxDataChunkSize = 750000 := rfl
  rw [hC] at hnum
  constructor
  · rw [hnum]
    have := ceil_div_nat s 750000 (by decide)
    rw [← this]
    norm_num
  · rw [hnum]
    constructor
    · intro h0
      have := (Nat.div_eq_zero_iff (by decide : 0 < 750000)).1 h0
      omega
    · intro h0
      subst h0
      decide

/-- C8 at the size 1500001, which needs 3 chunks. -/
theorem numChunks_exact_witness :
    numChunksOf 1500001 = ⌈((1500001 : Nat) : ℚ) / (750000 : ℚ)⌉₊ ∧
      (numChunksOf 1500001 = 0 ↔ 1500001 = 0) :=
  numChunks_exact 1500001 (by decide)

/-- C9, the code at the failing input: the upload of the one-chunk payload `A`
under the file name `f` with upload id 7 posts the text `upload-abc | QQ==` and
the channel, nothing else; the descriptor `upload:7:Zg==:1:1` that
`getSlackDescriptionForUpload` builds does not occur in the message. -/
theorem upload_message_omits_descriptor :
    UploadFileBytes sampleProfile (lit "f") (lit "A") 7
        { replies := [okReply], clock := [], trace := [] } =
      Outcome.ret none
        { replies := [], clock := [],
          trace := [Event.post postMessageUrl
            [(lit "channel", Value.str channel_id),
             (lit "text", Value.str (lit "upload-abc | QQ=="))]] } ∧
    numChunksOf (lit "A").length = 1 ∧
    getSlackDescriptionForUpload (fmtD 7) (EncodeToString (lit "f")) 1 1 =
      lit "upload:7:Zg==:1:1" ∧
    Contains (lit "upload-abc | QQ==") (lit "upload:7:Zg==:1:1") = false ∧
    Contains channel_id (lit "upload:7:Zg==:1:1") = false :=
  ⟨rfl, by decide, by decide, by decide, by decide⟩

/-- C10, the code at the failing inputs: when `getSlacks` yields an empty sequence,
because no message matches or because the history response is not ok,
`GetPayloadBytes` faults at `payloads[0]` and does not return to its caller. -/
theorem payload_fetch_faults_on_empty :
    GetPayloadBytes sampleLib sampleProfile (lit "x")
        { replies := [history []], clock := [1000], trace := [] } =
      Outcome.fault { replies := [], clock := [], trace := [Event.get (historyUrl 1000)] } ∧
    GetPayloadBytes sampleLib sampleProfile (lit "x")
        { replies := [notOkReply], clock := [1000], trace := [] } =
      Outcome.fault { replies := [], clock := [], trace := [Event.get (historyUrl 1000)] } :=
  ⟨rfl, rfl⟩

end Slack
